import Mathlib

/-!
# stm-data: the session record format and the event loops of term-save and term-receive

A shallow embedding of `src/term-save.cpp` and `src/term-receive.cpp`.

* A byte is the natural number that is its value, a byte string is a
  `List Nat`; text constants are written out byte by byte.
* Everything the operating system decides (what `poll` reports, what a `read`
  returns, whether an `ioctl` succeeds, how far a `write` gets, what the clock
  says) is an explicit input: one `Env` per turn of the `while ( 1 )` loop.
* Everything the program does to the outside is an `Effect`; a run produces the
  list of its effects in program order.
* `assert` failures are the status `aborted`; `return` and `break` both leave
  `save_session` and are the status `ended`.
* The diagnostics of `perror` on the standard error stream are left out, and so
  is `main`, which sets the terminal and the child up and calls `save_session`.
-/

/-! ## Bytes, descriptors and effects -/

/-- The descriptors used by the two programs: the controlling terminal
(`STDIN_FILENO`, `pollfds[ 0 ]`), the pseudo-terminal master (`child_fd`,
`pollfds[ 1 ]`), the signalfd (`winch_fd`, `pollfds[ 2 ]`), the log file of
term-save (`log_fd`) and the datagram socket of term-receive (`pollfds[ 3 ]`). -/
inductive Fd where
  | stdin
  | child
  | winch
  | log
  | sock
deriving DecidableEq, Repr

/-- The `struct winsize` fields the programs use. -/
structure Winsize where
  ws_row : Nat
  ws_col : Nat
deriving DecidableEq, Repr

/-- One interaction with the outside world. `read fd data`: a `read` on `fd`
that delivered `data` (empty on end of file or error). `write fd data`: one
`write` on `fd` that accepted `data`. `get_winsize r`: `ioctl TIOCGWINSZ` on the
terminal with its result. `set_winsize ws ok`: `ioctl TIOCSWINSZ` pushing `ws`
to the child pseudo-terminal, and whether it succeeded. -/
inductive Effect where
  | read (fd : Fd) (data : List Nat)
  | write (fd : Fd) (data : List Nat)
  | get_winsize (result : Option Winsize)
  | set_winsize (ws : Winsize) (ok : Bool)
deriving DecidableEq, Repr

/-- All bytes a descriptor accepted over a list of effects, in order. -/
def written (fd : Fd) : List Effect → List Nat
  | [] => []
  | Effect.write g data :: rest => if g = fd then data ++ written fd rest else written fd rest
  | _ :: rest => written fd rest

/-- All bytes delivered by reads on the descriptors `fds` over a list of
effects, in the order of the reads. -/
def bytes_read (fds : List Fd) : List Effect → List Nat
  | [] => []
  | Effect.read g data :: rest =>
    if g ∈ fds then data ++ bytes_read fds rest else bytes_read fds rest
  | _ :: rest => bytes_read fds rest

/-- The descriptors read from over a list of effects, in order. -/
def serviced : List Effect → List Fd
  | [] => []
  | Effect.read g _ :: rest => g :: serviced rest
  | _ :: rest => serviced rest

/-- The number of window-size calls (`TIOCGWINSZ`, `TIOCSWINSZ`) over a list
of effects. -/
def window_calls : List Effect → Nat
  | [] => 0
  | Effect.get_winsize _ :: rest => window_calls rest + 1
  | Effect.set_winsize _ _ :: rest => window_calls rest + 1
  | _ :: rest => window_calls rest

/-- How the status of `save_session` is tracked: still in the loop, left by
`return` or `break`, or stopped by a failed `assert`. -/
inductive Status where
  | running
  | ended
  | aborted
deriving DecidableEq, Repr

/-! ## Constants -/

/-- `const size_t buf_size = 16384;` -/
def buf_size : Nat := 16384

/-- `const char HOST_STRING[] = "HOST";` -/
def HOST_STRING : List Nat := [72, 79, 83, 84]

/-- `const char USER_STRING[] = "USER";` -/
def USER_STRING : List Nat := [85, 83, 69, 82]

/-- The literal `SIZE` of the format string of `record_resize`. -/
def SIZE_STRING : List Nat := [83, 73, 90, 69]

/-- Linux `poll.h`: `POLLIN`. -/
def POLLIN : Nat := 1

/-- Linux `poll.h`: `POLLERR`. -/
def POLLERR : Nat := 8

/-- Linux `poll.h`: `POLLHUP`. -/
def POLLHUP : Nat := 16

/-- Linux `poll.h`: `POLLNVAL`. -/
def POLLNVAL : Nat := 32

/-- Linux `signal.h`: `SIGWINCH`. -/
def SIGWINCH : Nat := 28

/-- Linux: `sizeof( struct signalfd_siginfo )`. -/
def sizeof_siginfo : Int := 128

/-! ## The C library pieces the record functions use -/

/-- Decimal digits of `n`, most significant first; `fuel` bounds the recursion. -/
def fmt_u_aux : Nat → Nat → List Nat
  | 0, _ => []
  | fuel + 1, n => if n < 10 then [48 + n] else fmt_u_aux fuel (n / 10) ++ [48 + n % 10]

/-- Decimal rendering of a natural number, without sign or leading zeros
(`fmt_u_repr`: it is the numeral `Nat.repr` gives, as character codes). -/
def fmt_u (n : Nat) : List Nat := fmt_u_aux (n + 1) n

/-- How a 64-bit word handed to a `%ld` conversion is read: as a two's
complement `long`. -/
def as_long (w : Nat) : Int :=
  if w % 2 ^ 64 < 2 ^ 63 then ((w % 2 ^ 64 : Nat) : Int) else ((w % 2 ^ 64 : Nat) : Int) - 2 ^ 64

/-- The conversions `%ld` and `%d` of `printf`: a minus sign for a negative
value, then the decimal digits of the magnitude. -/
def fmt_ld (v : Int) : List Nat :=
  if v < 0 then 45 :: fmt_u v.natAbs else fmt_u v.natAbs

/-- `snprintf( message, size, ... )` once the conversions are expanded to
`text`: the buffer keeps at most `size - 1` bytes, the return value is the
length of the whole text. -/
def snprintf (size : Nat) (text : List Nat) : List Nat × Int :=
  (text.take (size - 1), (text.length : Int))

/-- What `clock_gettime` stores in a `struct timespec`. -/
structure Timespec where
  tv_sec : Nat
  tv_nsec : Nat
deriving DecidableEq, Repr

/-- The arithmetic of `micro_timestamp` on a clock reading: `tv_nsec / 1000`
stored in a `uint64_t`, to which `uint64_t( tv_sec ) * 1000000` is added. -/
def micros (tp : Timespec) : Nat :=
  (tp.tv_nsec / 1000 % 2 ^ 64 + tp.tv_sec % 2 ^ 64 * 1000000) % 2 ^ 64

/-- `micro_timestamp`: `clock` is what `clock_gettime( CLOCK_MONOTONIC, &tp )`
delivers, `none` when the call fails (the `assert` then stops the program). -/
def micro_timestamp (clock : Option Timespec) : Option Nat :=
  match clock with
  | none => none
  | some tp => some (micros tp)

/-- The results of the successive `write` calls one `swrite` makes: `some k`
is a write that accepts `k + 1` of the bytes still to be sent (or all of them,
if fewer are left), `none` is a write that fails. When the list is used up the
descriptor accepts whatever is left in one write. -/
abbrev Script := List (Option Nat)

/-- Modelled from the spec: `swrite` is declared in `swrite.hpp`, which is not
among the sources. The spec: a write "that succeeds for fewer bytes than read
must be retried until all bytes are sent or a fatal error occurs"; forwarding is
"all-or-nothing from the caller's perspective". The result is the writes that
took place and the return value, `0` when every byte was sent and `-1` after a
failed write. -/
def swrite (fd : Fd) : List Nat → Script → List Effect × Int
  | [], _ => ([], 0)
  | b :: bs, [] => ([Effect.write fd (b :: bs)], 0)
  | _ :: _, none :: _ => ([], -1)
  | b :: bs, some k :: rest =>
    let r := swrite fd ((b :: bs).drop (k + 1)) rest
    (Effect.write fd ((b :: bs).take (k + 1)) :: r.1, r.2)

/-- `read( fd, buf, count )`: `avail` is what the descriptor has to offer
(`none`: the call fails). The result is the return value and the bytes stored
in `buf`. -/
def sys_read (avail : Option (List Nat)) (count : Nat) : Int × List Nat :=
  match avail with
  | none => (-1, [])
  | some data => (((data.take count).length : Int), data.take count)

/-! ## term-save.cpp: the record functions -/

/-- The text of the format `"%ld %s %ld\n"` of `record_string` for the
timestamp word `now`, the tag and `num`. -/
def string_header (now : Nat) (tag : List Nat) (num : Int) : List Nat :=
  fmt_ld (as_long now) ++ [32] ++ tag ++ [32] ++ fmt_ld num ++ [10]

/-- The text of the format `"%ld SIZE %d %d\n"` of `record_resize`. -/
def resize_header (now : Nat) (width height : Int) : List Nat :=
  fmt_ld (as_long now) ++ [32] ++ SIZE_STRING ++ [32] ++ fmt_ld width ++ [32]
    ++ fmt_ld height ++ [10]

/-- `record_string( log_fd, buf, num, tag )`. `clock` is the clock reading of
the `micro_timestamp()` call, `w1 w2 w3` are the write results of the three
`swrite` calls, whose return values the function ignores. `none` is a failed
`assert`. -/
def record_string (clock : Option Timespec) (buf : List Nat) (num : Int) (tag : List Nat)
    (w1 w2 w3 : Script) : Option (List Effect) :=
  match micro_timestamp clock with
  | none => none
  | some now =>
    let r := snprintf 2048 (string_header now tag num)
    if r.2 < 0 then none
    else if ¬ r.2 < 2048 then none
    else some ((swrite Fd.log (r.1.take r.2.toNat) w1).1
      ++ (swrite Fd.log (buf.take num.toNat) w2).1
      ++ (swrite Fd.log [10] w3).1)

/-- `record_resize( log_fd, width, height )`. -/
def record_resize (clock : Option Timespec) (width height : Int) (w1 : Script) :
    Option (List Effect) :=
  match micro_timestamp clock with
  | none => none
  | some now =>
    let r := snprintf 2048 (resize_header now width height)
    if r.2 < 0 then none
    else if ¬ r.2 < 2048 then none
    else some (swrite Fd.log (r.1.take r.2.toNat) w1).1

/-! ## The environment of one turn of the loop -/

/-- What the operating system answers during one turn of the `while ( 1 )`
loop. `poll_ret` and `revents0` .. `revents3` are the result of `poll`; `input`
is what the `read` of this turn finds; `winch_read` and `ssi_signo` are the
result of the read on the signalfd; `winsz` is the result of `TIOCGWINSZ`
(`none`: failure); `set_ok` says whether `TIOCSWINSZ` succeeds; `clock` is the
clock reading; `fwd` is the fate of the forwarding `swrite`, `log1 log2 log3`
of the writes to the log. -/
structure Env where
  poll_ret : Int
  revents0 : Nat
  revents1 : Nat
  revents2 : Nat
  revents3 : Nat
  input : Option (List Nat)
  winch_read : Int
  ssi_signo : Nat
  winsz : Option Winsize
  set_ok : Bool
  clock : Option Timespec
  fwd : Script
  log1 : Script
  log2 : Script
  log3 : Script

/-- What the operating system answers before the loop starts: whether the
three signal-mask calls succeed, the descriptor `signalfd` returns, the result
of `TIOCGWINSZ`, whether `TIOCSWINSZ` succeeds, the clock and the write to the
log. -/
structure InitEnv where
  sigmask_ok : Bool
  winch_fd : Int
  winsz : Option Winsize
  set_ok : Bool
  clock : Option Timespec
  log1 : Script

/-! ## term-save.cpp: save_session -/

namespace TermSave

/-- The part of `save_session` before the loop: the signal mask, `signalfd`,
the first `TIOCGWINSZ`, the first `TIOCSWINSZ`, then the first
`record_resize( log_fd, window_size.ws_col, window_size.ws_row )`. -/
def session_start (ie : InitEnv) : Status × List Effect :=
  if ¬ ie.sigmask_ok then (Status.aborted, [])
  else if ie.winch_fd < 0 then (Status.ended, [])
  else
    match ie.winsz with
    | none => (Status.ended, [Effect.get_winsize none])
    | some ws =>
      if ¬ ie.set_ok then
        (Status.ended, [Effect.get_winsize (some ws), Effect.set_winsize ws false])
      else
        match record_resize ie.clock (ws.ws_col : Int) (ws.ws_row : Int) ie.log1 with
        | none => (Status.aborted, [Effect.get_winsize (some ws), Effect.set_winsize ws true])
        | some logged =>
          (Status.running,
            [Effect.get_winsize (some ws), Effect.set_winsize ws true] ++ logged)

/-- The branch `if ( pollfds[ 0 ].revents & POLLIN )` of term-save.cpp: input
from the user is read, recorded with the tag `USER`, and sent along to the
child. -/
def on_user (e : Env) : Status × List Effect :=
  let r := sys_read e.input buf_size
  if r.1 = 0 then (Status.ended, [Effect.read Fd.stdin r.2])
  else if r.1 < 0 then (Status.ended, [Effect.read Fd.stdin r.2])
  else
    match record_string e.clock r.2 r.1 USER_STRING e.log1 e.log2 e.log3 with
    | none => (Status.aborted, [Effect.read Fd.stdin r.2])
    | some logged =>
      let w := swrite Fd.child (r.2.take r.1.toNat) e.fwd
      if w.2 < 0 then (Status.ended, [Effect.read Fd.stdin r.2] ++ logged ++ w.1)
      else (Status.running, [Effect.read Fd.stdin r.2] ++ logged ++ w.1)

/-- The branch `else if ( pollfds[ 1 ].revents & POLLIN )` of term-save.cpp:
input from the child is read, recorded with the tag `HOST`, and sent along to
the user, on `pollfds[ 0 ].fd`. -/
def on_host (e : Env) : Status × List Effect :=
  let r := sys_read e.input buf_size
  if r.1 = 0 then (Status.ended, [Effect.read Fd.child r.2])
  else if r.1 < 0 then (Status.ended, [Effect.read Fd.child r.2])
  else
    match record_string e.clock r.2 r.1 HOST_STRING e.log1 e.log2 e.log3 with
    | none => (Status.aborted, [Effect.read Fd.child r.2])
    | some logged =>
      let w := swrite Fd.stdin (r.2.take r.1.toNat) e.fwd
      if w.2 < 0 then (Status.ended, [Effect.read Fd.child r.2] ++ logged ++ w.1)
      else (Status.running, [Effect.read Fd.child r.2] ++ logged ++ w.1)

/-- The branch `else if ( pollfds[ 2 ].revents & POLLIN )` of term-save.cpp:
the signalfd is read (two `assert`s), the new size is obtained, recorded, and
then pushed to the child. The read on the signalfd is entered with no data:
its content is only checked by the `assert`s. -/
def on_resize (e : Env) : Status × List Effect :=
  if ¬ e.winch_read = sizeof_siginfo then (Status.aborted, [Effect.read Fd.winch []])
  else if ¬ e.ssi_signo = SIGWINCH then (Status.aborted, [Effect.read Fd.winch []])
  else
    match e.winsz with
    | none => (Status.ended, [Effect.read Fd.winch [], Effect.get_winsize none])
    | some ws =>
      match record_resize e.clock (ws.ws_col : Int) (ws.ws_row : Int) e.log1 with
      | none => (Status.aborted, [Effect.read Fd.winch [], Effect.get_winsize (some ws)])
      | some logged =>
        if ¬ e.set_ok then
          (Status.ended, [Effect.read Fd.winch [], Effect.get_winsize (some ws)] ++ logged
            ++ [Effect.set_winsize ws false])
        else
          (Status.running, [Effect.read Fd.winch [], Effect.get_winsize (some ws)] ++ logged
            ++ [Effect.set_winsize ws true])

/-- One turn of the `while ( 1 )` loop of `save_session` in term-save.cpp: the
status after the turn and the effects of the turn. -/
def loop_body (e : Env) : Status × List Effect :=
  if e.poll_ret < 0 then (Status.ended, [])
  else if e.revents0 &&& POLLIN ≠ 0 then on_user e
  else if e.revents1 &&& POLLIN ≠ 0 then on_host e
  else if e.revents2 &&& POLLIN ≠ 0 then on_resize e
  else if (e.revents0 ||| e.revents1) &&& (POLLERR ||| POLLHUP ||| POLLNVAL) ≠ 0 then
    (Status.ended, [])
  else (Status.running, [])

/-- The `while ( 1 )` loop over the answers of the environment, turn by turn:
it goes on while the status is `running`; the effects accumulate. A status
`running` at the end of the list is a loop waiting in `poll`. -/
def loop : Status × List Effect → List Env → Status × List Effect
  | s, [] => s
  | (Status.running, tr), e :: es => loop ((loop_body e).1, tr ++ (loop_body e).2) es
  | (Status.ended, tr), _ :: _ => (Status.ended, tr)
  | (Status.aborted, tr), _ :: _ => (Status.aborted, tr)

/-- `save_session( log_fd, child_fd )` of term-save.cpp. -/
def save_session (ie : InitEnv) (es : List Env) : Status × List Effect :=
  loop (session_start ie) es

end TermSave

/-! ## term-receive.cpp: save_session -/

namespace TermReceive

/-- The part of `save_session` before the loop in term-receive.cpp; nothing is
recorded. -/
def session_start (ie : InitEnv) : Status × List Effect :=
  if ¬ ie.sigmask_ok then (Status.aborted, [])
  else if ie.winch_fd < 0 then (Status.ended, [])
  else
    match ie.winsz with
    | none => (Status.ended, [Effect.get_winsize none])
    | some ws =>
      if ¬ ie.set_ok then
        (Status.ended, [Effect.get_winsize (some ws), Effect.set_winsize ws false])
      else (Status.running, [Effect.get_winsize (some ws), Effect.set_winsize ws true])

/-- The branch `if ( pollfds[ 0 ].revents & POLLIN )` of term-receive.cpp:
input from the user is read and sent along to the child. -/
def on_user (e : Env) : Status × List Effect :=
  let r := sys_read e.input buf_size
  if r.1 = 0 then (Status.ended, [Effect.read Fd.stdin r.2])
  else if r.1 < 0 then (Status.ended, [Effect.read Fd.stdin r.2])
  else
    let w := swrite Fd.child (r.2.take r.1.toNat) e.fwd
    if w.2 < 0 then (Status.ended, [Effect.read Fd.stdin r.2] ++ w.1)
    else (Status.running, [Effect.read Fd.stdin r.2] ++ w.1)

/-- The branch `else if ( pollfds[ 1 ].revents & POLLIN )` of
term-receive.cpp: input from the child is read and sent along to the user. -/
def on_host (e : Env) : Status × List Effect :=
  let r := sys_read e.input buf_size
  if r.1 = 0 then (Status.ended, [Effect.read Fd.child r.2])
  else if r.1 < 0 then (Status.ended, [Effect.read Fd.child r.2])
  else
    let w := swrite Fd.stdin (r.2.take r.1.toNat) e.fwd
    if w.2 < 0 then (Status.ended, [Effect.read Fd.child r.2] ++ w.1)
    else (Status.running, [Effect.read Fd.child r.2] ++ w.1)

/-- The branch `else if ( pollfds[ 2 ].revents & POLLIN )` of
term-receive.cpp: the signalfd is read, the new size is obtained and pushed to
the child. -/
def on_resize (e : Env) : Status × List Effect :=
  if ¬ e.winch_read = sizeof_siginfo then (Status.aborted, [Effect.read Fd.winch []])
  else if ¬ e.ssi_signo = SIGWINCH then (Status.aborted, [Effect.read Fd.winch []])
  else
    match e.winsz with
    | none => (Status.ended, [Effect.read Fd.winch [], Effect.get_winsize none])
    | some ws =>
      if ¬ e.set_ok then
        (Status.ended, [Effect.read Fd.winch [], Effect.get_winsize (some ws),
          Effect.set_winsize ws false])
      else
        (Status.running, [Effect.read Fd.winch [], Effect.get_winsize (some ws),
          Effect.set_winsize ws true])

/-- The branch `else if ( pollfds[ 3 ].revents & POLLIN )` of
term-receive.cpp: input from the socket ("fake user") is read and sent along
to the child. -/
def on_socket (e : Env) : Status × List Effect :=
  let r := sys_read e.input buf_size
  if r.1 = 0 then (Status.ended, [Effect.read Fd.sock r.2])
  else if r.1 < 0 then (Status.ended, [Effect.read Fd.sock r.2])
  else
    let w := swrite Fd.child (r.2.take r.1.toNat) e.fwd
    if w.2 < 0 then (Status.ended, [Effect.read Fd.sock r.2] ++ w.1)
    else (Status.running, [Effect.read Fd.sock r.2] ++ w.1)

/-- One turn of the `while ( 1 )` loop of `save_session` in term-receive.cpp. -/
def loop_body (e : Env) : Status × List Effect :=
  if e.poll_ret < 0 then (Status.ended, [])
  else if e.revents0 &&& POLLIN ≠ 0 then on_user e
  else if e.revents1 &&& POLLIN ≠ 0 then on_host e
  else if e.revents2 &&& POLLIN ≠ 0 then on_resize e
  else if e.revents3 &&& POLLIN ≠ 0 then on_socket e
  else if (e.revents0 ||| e.revents1 ||| e.revents2 ||| e.revents3)
      &&& (POLLERR ||| POLLHUP ||| POLLNVAL) ≠ 0 then
    (Status.ended, [])
  else (Status.running, [])

/-- The `while ( 1 )` loop of term-receive.cpp over the answers of the
environment. -/
def loop : Status × List Effect → List Env → Status × List Effect
  | s, [] => s
  | (Status.running, tr), e :: es => loop ((loop_body e).1, tr ++ (loop_body e).2) es
  | (Status.ended, tr), _ :: _ => (Status.ended, tr)
  | (Status.aborted, tr), _ :: _ => (Status.aborted, tr)

/-- `save_session( socket, child_fd )` of term-receive.cpp. -/
def save_session (ie : InitEnv) (es : List Env) : Status × List Effect :=
  loop (session_start ie) es

end TermReceive

/-! ## The common shape of the data branches -/

/-- The data branches of both loops at once: a read on `src`; end of file or
an error ends the session; otherwise the chunk is recorded under `tag` (when
there is one: term-save) and sent along to `dst`. Each data branch above is
an instance (`relay_save_user` and the theorems after it). -/
def relay (src dst : Fd) (tag : Option (List Nat)) (e : Env) : Status × List Effect :=
  let r := sys_read e.input buf_size
  if r.1 = 0 then (Status.ended, [Effect.read src r.2])
  else if r.1 < 0 then (Status.ended, [Effect.read src r.2])
  else
    match tag with
    | none =>
      let w := swrite dst (r.2.take r.1.toNat) e.fwd
      if w.2 < 0 then (Status.ended, [Effect.read src r.2] ++ w.1)
      else (Status.running, [Effect.read src r.2] ++ w.1)
    | some t =>
      match record_string e.clock r.2 r.1 t e.log1 e.log2 e.log3 with
      | none => (Status.aborted, [Effect.read src r.2])
      | some logged =>
        let w := swrite dst (r.2.take r.1.toNat) e.fwd
        if w.2 < 0 then (Status.ended, [Effect.read src r.2] ++ logged ++ w.1)
        else (Status.running, [Effect.read src r.2] ++ logged ++ w.1)

/-! ## The log format as the spec words it, and a decoder -/

/-- The origin of a chunk of session data. -/
inductive Origin where
  | user
  | host
deriving DecidableEq, Repr

/-- The tag of an origin in a header line. -/
def Origin.tag : Origin → List Nat
  | Origin.user => USER_STRING
  | Origin.host => HOST_STRING

/-- A session record: a chunk of bytes with its origin, or a window size. -/
inductive Record where
  | chunk (timestamp : Nat) (origin : Origin) (payload : List Nat)
  | resize (timestamp : Nat) (columns rows : Nat)
deriving DecidableEq, Repr

/-- The timestamp of a record. -/
def Record.timestamp : Record → Nat
  | Record.chunk t _ _ => t
  | Record.resize t _ _ => t

/-- The bytes of a record in the log: the header line
`<timestamp> <ORIGIN> <length>`, a newline, the payload and a newline; or the
line `<timestamp> SIZE <columns> <rows>` and a newline. The timestamp stands
the way `%ld` prints the 64-bit word (its decimal digits when it is below
`2 ^ 63`), the other numbers are decimal. -/
def Record.encode : Record → List Nat
  | Record.chunk t o p =>
    fmt_ld (as_long t) ++ [32] ++ o.tag ++ [32] ++ fmt_u p.length ++ [10] ++ p ++ [10]
  | Record.resize t c r =>
    fmt_ld (as_long t) ++ [32] ++ SIZE_STRING ++ [32] ++ fmt_u c ++ [32] ++ fmt_u r ++ [10]

/-- A record without its timestamp. -/
inductive Obs where
  | chunk (origin : Origin) (payload : List Nat)
  | resize (columns rows : Nat)
deriving DecidableEq, Repr

/-- Forgets the timestamp of a record. -/
def Record.obs : Record → Obs
  | Record.chunk _ o p => Obs.chunk o p
  | Record.resize _ c r => Obs.resize c r

/-- The payload bytes of the chunks of one origin, in order. -/
def payloads (o : Origin) : List Record → List Nat
  | [] => []
  | Record.chunk _ o2 p :: rest => if o2 = o then p ++ payloads o rest else payloads o rest
  | Record.resize _ _ _ :: rest => payloads o rest

/-- What term-save observes, in order: each non-empty chunk read from the
terminal or from the child, and each window size it obtains. -/
def observed : List Effect → List Obs
  | [] => []
  | Effect.read Fd.stdin data :: rest =>
    if data = [] then observed rest else Obs.chunk Origin.user data :: observed rest
  | Effect.read Fd.child data :: rest =>
    if data = [] then observed rest else Obs.chunk Origin.host data :: observed rest
  | Effect.get_winsize (some ws) :: rest => Obs.resize ws.ws_col ws.ws_row :: observed rest
  | _ :: rest => observed rest

/-- One call of a record function of term-save.cpp, with the clock reading it
meets. -/
inductive Call where
  | string (clock : Timespec) (origin : Origin) (payload : List Nat)
  | resize (clock : Timespec) (ws : Winsize)
deriving DecidableEq, Repr

/-- Whether the arguments of a call are within their C types: a payload
length that fits `ssize_t`, a window size that fits `unsigned short`. -/
def Call.in_range : Call → Bool
  | Call.string _ _ p => decide (p.length < 2 ^ 63)
  | Call.resize _ ws => decide (ws.ws_col < 65536) && decide (ws.ws_row < 65536)

/-- The effects of a call on a log that accepts every write in one piece
(no effect when the call stops at an `assert`). -/
def Call.effects : Call → List Effect
  | Call.string clock o p =>
    (record_string (some clock) p (p.length : Int) o.tag [] [] []).getD []
  | Call.resize clock ws =>
    (record_resize (some clock) (ws.ws_col : Int) (ws.ws_row : Int) []).getD []

/-- The bytes a call appends to a log that accepts every write. -/
def Call.output (c : Call) : List Nat := written Fd.log c.effects

/-- The record a call is meant to leave in the log. -/
def Call.record : Call → Record
  | Call.string clock o p => Record.chunk (micros clock) o p
  | Call.resize clock ws => Record.resize (micros clock) ws.ws_col ws.ws_row

/-- The log a sequence of calls leaves: the concatenation of their outputs. -/
def log_of_calls : List Call → List Nat
  | [] => []
  | c :: cs => c.output ++ log_of_calls cs

/-- The concatenation of the encodings of a sequence of records. -/
def encode_all : List Record → List Nat
  | [] => []
  | r :: rs => r.encode ++ encode_all rs

/-- The descriptor term-save reads the chunks of an origin from. -/
def Origin.fd : Origin → Fd
  | Origin.user => Fd.stdin
  | Origin.host => Fd.child

/-- The effects `tr` left in the log exactly what the calls `calls` write, the
calls are in range, and they match, one for one and in order, what was
observed in `tr`; the payloads of each origin are the bytes read from its
descriptor. -/
def Recorded (tr : List Effect) (calls : List Call) : Prop :=
  (∀ c ∈ calls, c.in_range = true)
  ∧ written Fd.log tr = log_of_calls calls
  ∧ (calls.map Call.record).map Record.obs = observed tr
  ∧ payloads Origin.user (calls.map Call.record) = bytes_read [Fd.stdin] tr
  ∧ payloads Origin.host (calls.map Call.record) = bytes_read [Fd.child] tr

/-- Splits at the first occurrence of `sep`: the bytes before it and the bytes
after it; `none` when `sep` does not occur. -/
def split_at_first (sep : Nat) : List Nat → Option (List Nat × List Nat)
  | [] => none
  | b :: bs =>
    if b = sep then some ([], bs)
    else
      match split_at_first sep bs with
      | none => none
      | some (h, t) => some (b :: h, t)

/-- Reads decimal digits onto an accumulator; `none` at a byte that is not a digit. -/
def parse_dec_aux : List Nat → Nat → Option Nat
  | [], acc => some acc
  | b :: bs, acc => if 48 ≤ b ∧ b ≤ 57 then parse_dec_aux bs (acc * 10 + (b - 48)) else none

/-- Reads a non-empty decimal number. -/
def parse_dec : List Nat → Option Nat
  | [] => none
  | b :: bs => parse_dec_aux (b :: bs) 0

/-- Reads a decimal number with an optional minus sign, the way `%ld` prints
a `long`. -/
def parse_ld : List Nat → Option Int
  | 45 :: ds => (parse_dec ds).map (fun n => -(n : Int))
  | ds => (parse_dec ds).map (fun n => (n : Int))

/-- A `long` stored back in a 64-bit word. -/
def word_of_long (v : Int) : Nat := (v % 2 ^ 64).toNat

/-- Reads an origin tag. -/
def parse_origin (tag : List Nat) : Option Origin :=
  if tag = USER_STRING then some Origin.user
  else if tag = HOST_STRING then some Origin.host
  else none

/-- The decoder of one record: it reads the header line up to the first
newline; for a `SIZE` line that is the whole record; for `USER` and `HOST` it
then takes exactly the declared number of bytes and one newline. The
timestamp is read the way it was printed, as a `long`, and kept as the 64-bit
word. The result is the record and the rest of the input. -/
def decode_one (inp : List Nat) : Option (Record × List Nat) :=
  match split_at_first 10 inp with
  | none => none
  | some (header, rest) =>
    match split_at_first 32 header with
    | none => none
    | some (ts_text, after_ts) =>
      match parse_ld ts_text, split_at_first 32 after_ts with
      | some ts, some (tag, fields) =>
        if tag = SIZE_STRING then
          match split_at_first 32 fields with
          | none => none
          | some (c_text, r_text) =>
            match parse_dec c_text, parse_dec r_text with
            | some c, some r => some (Record.resize (word_of_long ts) c r, rest)
            | _, _ => none
        else
          match parse_origin tag, parse_dec fields with
          | some o, some n =>
            if (rest.drop n).head? = some 10 then
              some (Record.chunk (word_of_long ts) o (rest.take n), rest.drop (n + 1))
            else none
          | _, _ => none
      | _, _ => none

/-- The decoder of a whole log, record after record; `fuel` bounds the number
of records. -/
def decode_fuel : Nat → List Nat → Option (List Record)
  | _, [] => some []
  | 0, _ :: _ => none
  | fuel + 1, b :: bs =>
    match decode_one (b :: bs) with
    | none => none
    | some (r, rest) =>
      match decode_fuel fuel rest with
      | none => none
      | some rs => some (r :: rs)

/-- The decoder of a whole log. Every record takes at least one byte, so the
length of the input is fuel enough. -/
def decode (inp : List Nat) : Option (List Record) := decode_fuel inp.length inp

/-! ## Readiness -/

/-- Whether `poll` reported a descriptor readable: `revents & POLLIN`. -/
def readable (revents : Nat) : Bool := decide (revents &&& POLLIN ≠ 0)

/-- The first readable channel of term-save in the priority order of the
spec: LocalUser, then ChildProgram, then ResizeSignal. -/
def TermSave.first_readable (e : Env) : Option Fd :=
  ([(Fd.stdin, e.revents0), (Fd.child, e.revents1), (Fd.winch, e.revents2)].find?
    (fun c => readable c.2)).map Prod.fst

/-- The first readable channel of term-receive in the priority order of the
spec: LocalUser, then ChildProgram, then ResizeSignal, then RemoteInjector. -/
def TermReceive.first_readable (e : Env) : Option Fd :=
  ([(Fd.stdin, e.revents0), (Fd.child, e.revents1), (Fd.winch, e.revents2),
    (Fd.sock, e.revents3)].find? (fun c => readable c.2)).map Prod.fst

/-- The environment of a turn lets term-save record: the clock works, a
window size fits `unsigned short`, no write to the log fails. -/
def Env.records_well (e : Env) : Bool :=
  e.clock.isSome
  && (match e.winsz with
    | none => true
    | some ws => decide (ws.ws_col < 65536) && decide (ws.ws_row < 65536))
  && decide (none ∉ e.log1) && decide (none ∉ e.log2) && decide (none ∉ e.log3)

/-- The same for the part of `save_session` before the loop. -/
def InitEnv.records_well (ie : InitEnv) : Bool :=
  ie.clock.isSome
  && (match ie.winsz with
    | none => true
    | some ws => decide (ws.ws_col < 65536) && decide (ws.ws_row < 65536))
  && decide (none ∉ ie.log1)

/-- The environment of a turn is one the system can present to the record
functions: the clock delivers a reading, a window size fits `unsigned short`. -/
def Env.in_range (e : Env) : Bool :=
  e.clock.isSome
  && (match e.winsz with
    | none => true
    | some ws => decide (ws.ws_col < 65536) && decide (ws.ws_row < 65536))

/-- No write to the log fails in the turn. -/
def Env.log_writes_succeed (e : Env) : Bool :=
  decide (none ∉ e.log1) && decide (none ∉ e.log2) && decide (none ∉ e.log3)

/-- The same as `Env.in_range` for the part of `save_session` before the loop. -/
def InitEnv.in_range (ie : InitEnv) : Bool :=
  ie.clock.isSome
  && (match ie.winsz with
    | none => true
    | some ws => decide (ws.ws_col < 65536) && decide (ws.ws_row < 65536))

/-- The write to the log before the loop does not fail. -/
def InitEnv.log_writes_succeed (ie : InitEnv) : Bool := decide (none ∉ ie.log1)

/-! ## Forwarding as the spec words it -/

/-- What forwarding verbatim means for the outcome `r` of one turn, `srcs`
being the descriptors whose chunks go to the child: if the turn leaves the
loop running, the child got exactly the bytes read from `srcs` and the
terminal exactly the bytes read from the child; in any case each got a start
of them; the signalfd and the socket got nothing. -/
def turn_forwards (srcs : List Fd) (r : Status × List Effect) : Prop :=
  (r.1 = Status.running →
    written Fd.child r.2 = bytes_read srcs r.2
    ∧ written Fd.stdin r.2 = bytes_read [Fd.child] r.2)
  ∧ (∃ t, bytes_read srcs r.2 = written Fd.child r.2 ++ t)
  ∧ (∃ t, bytes_read [Fd.child] r.2 = written Fd.stdin r.2 ++ t)
  ∧ written Fd.winch r.2 = []
  ∧ written Fd.sock r.2 = []

/-- The concatenation, in service order, of the chunks read from the
descriptors `srcs` in the iterations of a run whose forward write succeeds.
`body` is the loop body of the program and `es` the turns the environment
offers to a loop that is running. An iteration that reads a chunk leaves the
loop running exactly when its forward `swrite` does not fail
(`relay_running_iff`); the first iteration that does not leave the loop
running is the last one of the run. -/
def forwarded (body : Env → Status × List Effect) (srcs : List Fd) : List Env → List Nat
  | [] => []
  | e :: es =>
    if (body e).1 = Status.running then bytes_read srcs (body e).2 ++ forwarded body srcs es
    else []

/-- The bytes written to `dst` by the iteration that took the run out of the
loop: what a failing forward write got through before it failed (nothing when
no iteration of `es` leaves the loop). -/
def unfinished (body : Env → Status × List Effect) (dst : Fd) : List Env → List Nat
  | [] => []
  | e :: es =>
    if (body e).1 = Status.running then unfinished body dst es else written dst (body e).2

/-! ## Sample inputs -/

/-- A clock reading of 1.5 seconds. -/
def sample_clock : Timespec := { tv_sec := 1, tv_nsec := 500000000 }

/-- A clock reading whose timestamp is `2 ^ 63` microseconds. -/
def late_clock : Timespec := { tv_sec := 9223372036854, tv_nsec := 775808000 }

/-- The bytes of `ls` and a newline. -/
def sample_ls : List Nat := [108, 115, 10]

/-- A sequence of calls: a user chunk holding a newline, a null byte and the
text of a header line (`1 USER 1`, newline, `x`, newline), an empty host
chunk, a resize to 80 columns by 24 rows, and a host chunk at `late_clock`. -/
def sample_calls : List Call :=
  [Call.string sample_clock Origin.user [10, 0, 49, 32, 85, 83, 69, 82, 32, 49, 10, 120, 10],
    Call.string { tv_sec := 2, tv_nsec := 0 } Origin.host [],
    Call.resize { tv_sec := 2, tv_nsec := 1000 } { ws_row := 24, ws_col := 80 },
    Call.string late_clock Origin.host [255, 10]]

/-- A turn in which `poll` reports nothing; the base of the sample turns. -/
def no_event : Env :=
  { poll_ret := 0, revents0 := 0, revents1 := 0, revents2 := 0, revents3 := 0,
    input := none, winch_read := 0, ssi_signo := 0, winsz := none, set_ok := true,
    clock := some sample_clock, fwd := [], log1 := [], log2 := [], log3 := [] }

/-- A turn of term-receive in which only the socket is readable and its read
returns zero bytes, as for a datagram of length zero. -/
def zero_datagram : Env :=
  { no_event with poll_ret := 1, revents3 := POLLIN, input := some [], clock := none }

/-- A turn in which only the child is readable and has the byte `a` to offer. -/
def host_byte : Env :=
  { no_event with poll_ret := 1, revents1 := POLLIN, input := some [97] }

/-- A turn in which the user is not readable, the child is and its read
returns zero bytes, while the resize signal and the socket are readable too. -/
def host_eof : Env :=
  { no_event with
    poll_ret := 3, revents1 := POLLIN, revents2 := POLLIN, revents3 := POLLIN,
    input := some [], winch_read := sizeof_siginfo, ssi_signo := SIGWINCH,
    winsz := some { ws_row := 24, ws_col := 80 } }

/-- A turn in which only the resize signal is readable; the terminal is now
100 columns by 40 rows and the child accepts the new size. -/
def resize_turn : Env :=
  { no_event with
    poll_ret := 1, revents2 := POLLIN, winch_read := sizeof_siginfo,
    ssi_signo := SIGWINCH, winsz := some { ws_row := 40, ws_col := 100 } }

/-- The same turn when the child refuses the new size. -/
def resize_turn_refused : Env :=
  { resize_turn with set_ok := false }

/-- A start of `save_session` at 80 columns by 24 rows in which every call
succeeds. -/
def sample_start : InitEnv :=
  { sigmask_ok := true, winch_fd := 3, winsz := some { ws_row := 24, ws_col := 80 },
    set_ok := true, clock := some sample_clock, log1 := [] }

/-- A turn in which the user and the child are both readable; the user typed
`ls` and a newline. -/
def user_types : Env :=
  { no_event with
    poll_ret := 2, revents0 := POLLIN, revents1 := POLLIN, input := some sample_ls }

/-- The turn `host_byte` when the write of the payload to the log fails. -/
def host_byte_unlogged : Env :=
  { host_byte with log2 := [none] }

/-- A turn of term-receive in which only the socket is readable and offers a
datagram holding `id` and a newline. -/
def socket_types : Env :=
  { no_event with poll_ret := 1, revents3 := POLLIN, input := some [105, 100, 10] }

/-- The turn `user_types` when the forward write gets one byte through and
then fails. -/
def user_chokes : Env :=
  { user_types with fwd := [some 0, none] }

/-- The turn `user_types` when the forward write fails at once. -/
def user_refused : Env :=
  { user_types with fwd := [none] }

/-- The turn `host_byte` when the forward write to the terminal fails at once. -/
def host_refused : Env :=
  { host_byte with fwd := [none] }

/-! ## Decimal rendering -/

theorem fmt_u_aux_fuel (f : Nat) :
    ∀ g n, n < f → n < g → fmt_u_aux f n = fmt_u_aux g n := by
  induction f with
  | zero => intro g n h; omega
  | succ f ih =>
    intro g n h hg
    cases g with
    | zero => omega
    | succ g =>
      by_cases hn : n < 10
      · simp [fmt_u_aux, hn]
      · simp only [fmt_u_aux, hn, if_false]
        rw [ih g (n / 10) (by omega) (by omega)]

theorem fmt_u_small (n : Nat) (h : n < 10) : fmt_u n = [48 + n] := by
  simp [fmt_u, fmt_u_aux, h]

theorem fmt_u_large (n : Nat) (h : 10 ≤ n) : fmt_u n = fmt_u (n / 10) ++ [48 + n % 10] := by
  have hn : ¬ n < 10 := by omega
  have h2 : n / 10 < n := by omega
  unfold fmt_u
  rw [fmt_u_aux]
  simp only [hn, if_false]
  rw [fmt_u_aux_fuel n (n / 10 + 1) (n / 10) h2 (by omega)]

theorem digitChar_toNat (d : Nat) (h : d < 10) : (Nat.digitChar d).toNat = 48 + d := by
  interval_cases d <;> rfl

theorem toDigitsCore_fmt_u (fuel : Nat) :
    ∀ n ds, n < fuel →
      (Nat.toDigitsCore 10 fuel n ds).map Char.toNat = fmt_u n ++ ds.map Char.toNat := by
  induction fuel with
  | zero => intro n ds h; omega
  | succ f ih =>
    intro n ds h
    unfold Nat.toDigitsCore
    by_cases hn : n / 10 = 0
    · have hlt : n < 10 := by omega
      have hmod : n % 10 = n := Nat.mod_eq_of_lt hlt
      simp [hn, fmt_u_small n hlt, hmod, digitChar_toNat n hlt]
    · have hge : 10 ≤ n := by omega
      simp only [hn, if_false]
      rw [ih (n / 10) _ (by omega), fmt_u_large n hge]
      simp [digitChar_toNat (n % 10) (Nat.mod_lt _ (by norm_num))]

/-- The rendering `fmt_u` is the decimal numeral of the standard library,
character by character. -/
theorem fmt_u_repr (n : Nat) : fmt_u n = (Nat.repr n).toList.map Char.toNat := by
  have := toDigitsCore_fmt_u (n + 1) n [] (by omega)
  simp only [List.map_nil, List.append_nil] at this
  rw [← this]
  rfl

theorem fmt_u_digits (n : Nat) : ∀ b ∈ fmt_u n, 48 ≤ b ∧ b ≤ 57 := by
  induction n using Nat.strong_induction_on with
  | _ n ih =>
    by_cases hn : n < 10
    · rw [fmt_u_small n hn]
      intro b hb
      simp only [List.mem_singleton] at hb
      omega
    · rw [fmt_u_large n (by omega)]
      intro b hb
      rcases List.mem_append.mp hb with hb | hb
      · exact ih (n / 10) (by omega) b hb
      · simp only [List.mem_singleton] at hb
        omega

theorem fmt_u_ne_nil (n : Nat) : fmt_u n ≠ [] := by
  by_cases hn : n < 10
  · rw [fmt_u_small n hn]; simp
  · rw [fmt_u_large n (by omega)]; simp

theorem fmt_u_length_le (k : Nat) : ∀ n, n < 10 ^ (k + 1) → (fmt_u n).length ≤ k + 1 := by
  induction k with
  | zero =>
    intro n h
    rw [fmt_u_small n (by simpa using h)]
    simp
  | succ k ih =>
    intro n h
    by_cases hn : n < 10
    · rw [fmt_u_small n hn]; simp
    · rw [fmt_u_large n (by omega)]
      have h1 : n / 10 < 10 ^ (k + 1) := by
        rw [Nat.div_lt_iff_lt_mul (by norm_num)]
        calc n < 10 ^ (k + 1 + 1) := h
          _ = 10 ^ (k + 1) * 10 := by ring
      have := ih (n / 10) h1
      simp only [List.length_append, List.length_singleton]
      omega

theorem parse_dec_aux_append (l : List Nat) (d : Nat) :
    ∀ acc, parse_dec_aux (l ++ [d]) acc
      = (parse_dec_aux l acc).bind
          (fun v => if 48 ≤ d ∧ d ≤ 57 then some (v * 10 + (d - 48)) else none) := by
  induction l with
  | nil => intro acc; simp [parse_dec_aux]
  | cons b bs ih =>
    intro acc
    by_cases hb : 48 ≤ b ∧ b ≤ 57
    · simp only [List.cons_append, parse_dec_aux, hb, and_self, if_true]
      exact ih _
    · simp [parse_dec_aux, hb]

theorem parse_dec_aux_fmt_u (n : Nat) : parse_dec_aux (fmt_u n) 0 = some n := by
  induction n using Nat.strong_induction_on with
  | _ n ih =>
    by_cases hn : n < 10
    · rw [fmt_u_small n hn]
      simp [parse_dec_aux]
      omega
    · rw [fmt_u_large n (by omega), parse_dec_aux_append, ih (n / 10) (by omega)]
      have h1 : 48 ≤ 48 + n % 10 ∧ 48 + n % 10 ≤ 57 := by omega
      simp only [Option.some_bind, h1, and_self, if_true, Option.some.injEq]
      omega

theorem parse_dec_fmt_u (n : Nat) : parse_dec (fmt_u n) = some n := by
  have h := parse_dec_aux_fmt_u n
  cases hl : fmt_u n with
  | nil => exact absurd hl (fmt_u_ne_nil n)
  | cons b bs => rw [hl] at h; simpa [parse_dec] using h

theorem fmt_ld_nat (n : Nat) : fmt_ld (n : Int) = fmt_u n := by
  have h : ¬ ((n : Int) < 0) := by omega
  simp [fmt_ld, h]

theorem as_long_small (w : Nat) (h : w < 2 ^ 63) : as_long w = (w : Int) := by
  have h1 : w % 2 ^ 64 = w := Nat.mod_eq_of_lt (by omega)
  unfold as_long
  rw [h1, if_pos h]

theorem as_long_range (w : Nat) : -(2 ^ 63 : Int) ≤ as_long w ∧ as_long w < 2 ^ 63 := by
  have h1 : w % 2 ^ 64 < 2 ^ 64 := Nat.mod_lt _ (by norm_num)
  unfold as_long
  split <;> constructor <;> omega

theorem fmt_ld_length_le (v : Int) (h1 : -(2 ^ 63 : Int) ≤ v) (h2 : v < 2 ^ 63) :
    (fmt_ld v).length ≤ 20 := by
  have hb : v.natAbs < 10 ^ (18 + 1) := by omega
  have := fmt_u_length_le 18 v.natAbs hb
  unfold fmt_ld
  split <;> simp <;> omega

theorem micros_lt (tp : Timespec) : micros tp < 2 ^ 64 := by
  unfold micros
  exact Nat.mod_lt _ (by norm_num)

theorem micros_onto (t : Nat) (h : t < 2 ^ 64) :
    micros (Timespec.mk (t / 1000000) (t % 1000000 * 1000)) = t := by
  unfold micros
  simp only
  have h1 : t % 1000000 * 1000 / 1000 = t % 1000000 := by omega
  rw [h1]
  have h2 : t % 1000000 % 2 ^ 64 = t % 1000000 := Nat.mod_eq_of_lt (by omega)
  have h3 : t / 1000000 % 2 ^ 64 = t / 1000000 := Nat.mod_eq_of_lt (by omega)
  rw [h2, h3]
  have h4 : t % 1000000 + t / 1000000 * 1000000 = t := by omega
  rw [h4]
  exact Nat.mod_eq_of_lt h

/-! ## Effects -/

theorem written_append (fd : Fd) (a b : List Effect) :
    written fd (a ++ b) = written fd a ++ written fd b := by
  induction a with
  | nil => rfl
  | cons x xs ih =>
    cases x with
    | write g d =>
      by_cases hg : g = fd
      · simp [written, hg, ih]
      · simp [written, hg, ih]
    | read g d => simpa [written] using ih
    | get_winsize r => simpa [written] using ih
    | set_winsize ws ok => simpa [written] using ih

theorem bytes_read_append (fds : List Fd) (a b : List Effect) :
    bytes_read fds (a ++ b) = bytes_read fds a ++ bytes_read fds b := by
  induction a with
  | nil => rfl
  | cons x xs ih =>
    cases x with
    | read g d =>
      by_cases hg : g ∈ fds
      · simp [bytes_read, hg, ih]
      · simp [bytes_read, hg, ih]
    | write g d => simpa [bytes_read] using ih
    | get_winsize r => simpa [bytes_read] using ih
    | set_winsize ws ok => simpa [bytes_read] using ih

theorem serviced_append (a b : List Effect) : serviced (a ++ b) = serviced a ++ serviced b := by
  induction a with
  | nil => rfl
  | cons x xs ih =>
    cases x with
    | read g d => simp [serviced, ih]
    | write g d => simpa [serviced] using ih
    | get_winsize r => simpa [serviced] using ih
    | set_winsize ws ok => simpa [serviced] using ih

theorem observed_append (a b : List Effect) : observed (a ++ b) = observed a ++ observed b := by
  induction a with
  | nil => rfl
  | cons x xs ih =>
    cases x with
    | read g d =>
      cases g <;> by_cases hd : d = [] <;> simp [observed, hd, ih]
    | write g d => simpa [observed] using ih
    | get_winsize r =>
      cases r with
      | none => simpa [observed] using ih
      | some ws => simp [observed, ih]
    | set_winsize ws ok => simpa [observed] using ih

/-! ## swrite -/

theorem swrite_written_self (fd : Fd) (w : Script) :
    ∀ buf, none ∉ w → written fd (swrite fd buf w).1 = buf ∧ (swrite fd buf w).2 = 0 := by
  induction w with
  | nil =>
    intro buf _
    cases buf with
    | nil => simp [swrite, written]
    | cons b bs => simp [swrite, written]
  | cons r rest ih =>
    intro buf h
    cases buf with
    | nil => simp [swrite, written]
    | cons b bs =>
      cases r with
      | none => simp at h
      | some k =>
        have hrest : none ∉ rest := fun hm => h (List.mem_cons_of_mem _ hm)
        have := ih ((b :: bs).drop (k + 1)) hrest
        simp only [swrite, written, if_true]
        rw [this.1, this.2]
        exact ⟨List.take_append_drop _ _, rfl⟩

theorem swrite_written_other (fd g : Fd) (hg : fd ≠ g) (w : Script) :
    ∀ buf, written g (swrite fd buf w).1 = [] := by
  induction w with
  | nil =>
    intro buf
    cases buf with
    | nil => simp [swrite, written]
    | cons b bs => simp [swrite, written, hg]
  | cons r rest ih =>
    intro buf
    cases buf with
    | nil => simp [swrite, written]
    | cons b bs =>
      cases r with
      | none => simp [swrite, written]
      | some k =>
        simp only [swrite, written, hg, if_false]
        exact ih _

theorem swrite_quiet (fds : List Fd) (fd : Fd) (w : Script) :
    ∀ buf, bytes_read fds (swrite fd buf w).1 = [] ∧ serviced (swrite fd buf w).1 = []
      ∧ observed (swrite fd buf w).1 = [] := by
  induction w with
  | nil =>
    intro buf
    cases buf with
    | nil => simp [swrite, bytes_read, serviced, observed]
    | cons b bs => simp [swrite, bytes_read, serviced, observed]
  | cons r rest ih =>
    intro buf
    cases buf with
    | nil => simp [swrite, bytes_read, serviced, observed]
    | cons b bs =>
      cases r with
      | none => simp [swrite, bytes_read, serviced, observed]
      | some k =>
        simp only [swrite, bytes_read, serviced, observed]
        exact ih _

theorem swrite_prefix (fd : Fd) (w : Script) :
    ∀ buf, (∃ t, buf = written fd (swrite fd buf w).1 ++ t)
      ∧ ((swrite fd buf w).2 = 0 → written fd (swrite fd buf w).1 = buf)
      ∧ ((swrite fd buf w).2 = 0 ∨ (swrite fd buf w).2 = -1) := by
  induction w with
  | nil =>
    intro buf
    cases buf with
    | nil => simp [swrite, written]
    | cons b bs => simp [swrite, written]
  | cons r rest ih =>
    intro buf
    cases buf with
    | nil => simp [swrite, written]
    | cons b bs =>
      cases r with
      | none => simp [swrite, written]
      | some k =>
        obtain ⟨⟨t, ht⟩, h2, h3⟩ := ih ((b :: bs).drop (k + 1))
        simp only [swrite, written, if_true]
        refine ⟨⟨t, ?_⟩, ?_, h3⟩
        · rw [List.append_assoc, ← ht, List.take_append_drop]
        · intro h0
          rw [h2 h0, List.take_append_drop]

/-! ## The record functions -/

theorem string_header_length (now : Nat) (tag : List Nat) (num : Int) (htag : tag.length = 4)
    (h1 : -(2 ^ 63 : Int) ≤ num) (h2 : num < 2 ^ 63) :
    (string_header now tag num).length ≤ 47 := by
  have ha := fmt_ld_length_le (as_long now) (as_long_range now).1 (as_long_range now).2
  have hb := fmt_ld_length_le num h1 h2
  simp only [string_header, List.length_append, List.length_singleton, htag]
  omega

theorem resize_header_length (now : Nat) (width height : Int)
    (hw : -(2 ^ 63 : Int) ≤ width ∧ width < 2 ^ 63)
    (hh : -(2 ^ 63 : Int) ≤ height ∧ height < 2 ^ 63) :
    (resize_header now width height).length ≤ 68 := by
  have ha := fmt_ld_length_le (as_long now) (as_long_range now).1 (as_long_range now).2
  have hb := fmt_ld_length_le width hw.1 hw.2
  have hc := fmt_ld_length_le height hh.1 hh.2
  simp only [resize_header, List.length_append, List.length_singleton, SIZE_STRING,
    List.length_cons, List.length_nil]
  omega

theorem snprintf_whole (text : List Nat) (h : text.length < 2048) :
    (snprintf 2048 text).1.take (snprintf 2048 text).2.toNat = text := by
  simp only [snprintf, Int.toNat_ofNat]
  rw [List.take_take]
  apply List.take_of_length_le
  omega

theorem record_string_eq (tp : Timespec) (buf : List Nat) (num : Int) (tag : List Nat)
    (w1 w2 w3 : Script) (h : (string_header (micros tp) tag num).length < 2048) :
    record_string (some tp) buf num tag w1 w2 w3
      = some ((swrite Fd.log (string_header (micros tp) tag num) w1).1
        ++ (swrite Fd.log (buf.take num.toNat) w2).1 ++ (swrite Fd.log [10] w3).1) := by
  have h0 : ¬ ((snprintf 2048 (string_header (micros tp) tag num)).2 < 0) := by
    simp [snprintf]
  have h1 : (snprintf 2048 (string_header (micros tp) tag num)).2 < 2048 := by
    simp only [snprintf]; omega
  simp only [record_string, micro_timestamp, h0, h1, if_false, not_true_eq_false]
  rw [snprintf_whole _ h]

theorem record_resize_eq (tp : Timespec) (width height : Int) (w1 : Script)
    (h : (resize_header (micros tp) width height).length < 2048) :
    record_resize (some tp) width height w1
      = some (swrite Fd.log (resize_header (micros tp) width height) w1).1 := by
  have h0 : ¬ ((snprintf 2048 (resize_header (micros tp) width height)).2 < 0) := by
    simp [snprintf]
  have h1 : (snprintf 2048 (resize_header (micros tp) width height)).2 < 2048 := by
    simp only [snprintf]; omega
  simp only [record_resize, micro_timestamp, h0, h1, if_false, not_true_eq_false]
  rw [snprintf_whole _ h]

theorem origin_tag_length (o : Origin) : o.tag.length = 4 := by
  cases o <;> rfl

theorem string_header_encode (tp : Timespec) (o : Origin) (p : List Nat) :
    string_header (micros tp) o.tag (p.length : Int) ++ p ++ [10]
      = (Record.chunk (micros tp) o p).encode := by
  simp only [string_header, Record.encode, fmt_ld_nat]

theorem resize_header_encode (tp : Timespec) (ws : Winsize) :
    resize_header (micros tp) (ws.ws_col : Int) (ws.ws_row : Int)
      = (Record.resize (micros tp) ws.ws_col ws.ws_row).encode := by
  simp only [resize_header, Record.encode, fmt_ld_nat]

/-- With a log that takes every write, `record_string` leaves exactly the
bytes of the chunk record in the log. -/
theorem record_string_log (tp : Timespec) (o : Origin) (p : List Nat) (w1 w2 w3 : Script)
    (hp : p.length < 2 ^ 63)
    (h1 : none ∉ w1) (h2 : none ∉ w2) (h3 : none ∉ w3) :
    ∃ logged, record_string (some tp) p (p.length : Int) o.tag w1 w2 w3 = some logged
      ∧ written Fd.log logged = (Record.chunk (micros tp) o p).encode := by
  have hlen := string_header_length (micros tp) o.tag (p.length : Int) (origin_tag_length o)
    (by omega) (by omega)
  refine ⟨_, record_string_eq tp p _ o.tag w1 w2 w3 (by omega), ?_⟩
  rw [written_append, written_append, (swrite_written_self Fd.log w1 _ h1).1,
    (swrite_written_self Fd.log w2 _ h2).1, (swrite_written_self Fd.log w3 _ h3).1]
  simp only [Int.toNat_ofNat, List.take_length]
  exact string_header_encode tp o p

theorem record_resize_log (tp : Timespec) (ws : Winsize) (w1 : Script)
    (hc : ws.ws_col < 65536) (hr : ws.ws_row < 65536)
    (h1 : none ∉ w1) :
    ∃ logged, record_resize (some tp) (ws.ws_col : Int) (ws.ws_row : Int) w1 = some logged
      ∧ written Fd.log logged = (Record.resize (micros tp) ws.ws_col ws.ws_row).encode := by
  have hlen := resize_header_length (micros tp) (ws.ws_col : Int) (ws.ws_row : Int)
    (by constructor <;> omega) (by constructor <;> omega)
  refine ⟨_, record_resize_eq tp _ _ w1 (by omega), ?_⟩
  rw [(swrite_written_self Fd.log w1 _ h1).1]
  exact resize_header_encode tp ws

theorem record_string_quiet (clock : Option Timespec) (buf : List Nat) (num : Int)
    (tag : List Nat) (w1 w2 w3 : Script) (logged : List Effect) (fds : List Fd)
    (h : record_string clock buf num tag w1 w2 w3 = some logged) :
    (∀ g, g ≠ Fd.log → written g logged = []) ∧ bytes_read fds logged = []
      ∧ serviced logged = [] ∧ observed logged = [] := by
  unfold record_string at h
  split at h
  · exact absurd h (by simp)
  · dsimp only at h
    split at h
    · exact absurd h (by simp)
    · split at h
      · exact absurd h (by simp)
      · simp only [Option.some.injEq] at h
        subst h
        refine ⟨fun g hg => ?_, ?_, ?_, ?_⟩
        · simp [written_append, swrite_written_other Fd.log g (Ne.symm hg)]
        · simp [bytes_read_append, (swrite_quiet fds Fd.log _ _).1]
        · simp [serviced_append, (swrite_quiet fds Fd.log _ _).2.1]
        · simp [observed_append, (swrite_quiet fds Fd.log _ _).2.2]

theorem record_resize_quiet (clock : Option Timespec) (width height : Int)
    (w1 : Script) (logged : List Effect) (fds : List Fd)
    (h : record_resize clock width height w1 = some logged) :
    (∀ g, g ≠ Fd.log → written g logged = []) ∧ bytes_read fds logged = []
      ∧ serviced logged = [] ∧ observed logged = [] := by
  unfold record_resize at h
  split at h
  · exact absurd h (by simp)
  · dsimp only at h
    split at h
    · exact absurd h (by simp)
    · split at h
      · exact absurd h (by simp)
      · simp only [Option.some.injEq] at h
        subst h
        refine ⟨fun g hg => ?_, ?_, ?_, ?_⟩
        · simp [swrite_written_other Fd.log g (Ne.symm hg)]
        · simp [(swrite_quiet fds Fd.log _ _).1]
        · simp [(swrite_quiet fds Fd.log _ _).2.1]
        · simp [(swrite_quiet fds Fd.log _ _).2.2]

/-! ## The claims about the record functions -/

/-- A clock reading of 9223372036854.775808 seconds: its timestamp is exactly
`2 ^ 63` microseconds. -/
theorem late_clock_micros : micros late_clock = 2 ^ 63 := by decide

/-- Below `2 ^ 63` the header of `record_string` is the text with the plain
decimal digits of the timestamp and of the length. -/
theorem string_header_text (now : Nat) (tag : List Nat) (n : Nat) (h : now < 2 ^ 63) :
    string_header now tag (n : Int)
      = fmt_u now ++ [32] ++ tag ++ [32] ++ fmt_u n ++ [10] := by
  simp only [string_header, as_long_small now h, fmt_ld_nat]

/-- Below `2 ^ 63` the line of `record_resize` is the text with the plain
decimal digits of the timestamp, the columns and the rows. -/
theorem resize_header_text (now columns rows : Nat) (h : now < 2 ^ 63) :
    resize_header now (columns : Int) (rows : Int)
      = fmt_u now ++ [32] ++ SIZE_STRING ++ [32] ++ fmt_u columns ++ [32] ++ fmt_u rows
          ++ [10] := by
  simp only [resize_header, as_long_small now h, fmt_ld_nat]

/-- C1. For every clock reading whose timestamp `T = micros tp` is below
`2 ^ 63` (each reading of the monotonic clock is: the kernel counts it in
signed 64-bit nanoseconds), each of the tags `USER` and `HOST`, and every
payload (of a length that fits `ssize_t`): whatever becomes of the writes,
`record_string` makes exactly three `swrite` calls on the log and hands them,
in this order, the decimal digits of `T`, a space, the tag, a space, the
decimal digits of the payload length and a newline; then the payload
unchanged; then one newline. When none of the three writes fails, the bytes
the log receives are exactly these, one after the other. The declared length
reads back as the number of payload bytes. -/
theorem record_string_text (tp : Timespec) (tag payload : List Nat)
    (hT : micros tp < 2 ^ 63) (htag : tag = USER_STRING ∨ tag = HOST_STRING)
    (hlen : payload.length < 2 ^ 63) :
    (∀ w1 w2 w3 : Script,
      record_string (some tp) payload (payload.length : Int) tag w1 w2 w3
        = some ((swrite Fd.log
              (fmt_u (micros tp) ++ [32] ++ tag ++ [32] ++ fmt_u payload.length ++ [10]) w1).1
            ++ (swrite Fd.log payload w2).1 ++ (swrite Fd.log [10] w3).1))
    ∧ (∀ w1 w2 w3 : Script, none ∉ w1 → none ∉ w2 → none ∉ w3 →
      (record_string (some tp) payload (payload.length : Int) tag w1 w2 w3).map
          (written Fd.log)
        = some (fmt_u (micros tp) ++ [32] ++ tag ++ [32] ++ fmt_u payload.length ++ [10]
            ++ payload ++ [10]))
    ∧ parse_dec (fmt_u payload.length) = some payload.length := by
  have htl : tag.length = 4 := by rcases htag with h | h <;> subst h <;> rfl
  have hshort := string_header_length (micros tp) tag (payload.length : Int) htl
    (by omega) (by omega)
  have hcalls : ∀ w1 w2 w3 : Script,
      record_string (some tp) payload (payload.length : Int) tag w1 w2 w3
        = some ((swrite Fd.log
              (fmt_u (micros tp) ++ [32] ++ tag ++ [32] ++ fmt_u payload.length ++ [10]) w1).1
            ++ (swrite Fd.log payload w2).1 ++ (swrite Fd.log [10] w3).1) := by
    intro w1 w2 w3
    rw [record_string_eq tp payload _ tag w1 w2 w3 (by omega),
      string_header_text _ _ _ hT, Int.toNat_ofNat, List.take_length]
  refine ⟨hcalls, ?_, parse_dec_fmt_u _⟩
  intro w1 w2 w3 h1 h2 h3
  rw [hcalls w1 w2 w3, Option.map_some', written_append, written_append,
    (swrite_written_self Fd.log w1 _ h1).1, (swrite_written_self Fd.log w2 _ h2).1,
    (swrite_written_self Fd.log w3 _ h3).1]

/-- C1, at the chunk `ls` and a newline from the user at the timestamp
1500000: the log receives `1500000 USER 3`, a newline, the three bytes and a
newline. -/
theorem record_string_text_sample :
    (record_string (some sample_clock) sample_ls 3 USER_STRING [] [] []).map (written Fd.log)
      = some [49, 53, 48, 48, 48, 48, 48, 32, 85, 83, 69, 82, 32, 51, 10, 108, 115, 10, 10]
    ∧ parse_dec (fmt_u 3) = some 3 :=
  ⟨(record_string_text sample_clock USER_STRING sample_ls (by decide) (Or.inl rfl)
      (by decide)).2.1 [] [] [] (by decide) (by decide) (by decide),
    (record_string_text sample_clock USER_STRING sample_ls (by decide) (Or.inl rfl)
      (by decide)).2.2⟩

/-- The conversion `%ld` reads the 64-bit timestamp word as a `long`. At
`late_clock`, a reading of more than 292000 years that the monotonic clock
does not reach, the word is `2 ^ 63` and the header starts with a minus sign. -/
theorem record_string_high_timestamp :
    micro_timestamp (some late_clock) = some 9223372036854775808
    ∧ (record_string (some late_clock) [97] 1 USER_STRING [] [] []).map (written Fd.log)
      = some [45, 57, 50, 50, 51, 51, 55, 50, 48, 51, 54, 56, 53, 52, 55, 55, 53, 56, 48, 56,
          32, 85, 83, 69, 82, 32, 49, 10, 97, 10]
    ∧ (record_string (some late_clock) [97] 1 USER_STRING [] [] []).map (written Fd.log)
      ≠ some (fmt_u 9223372036854775808 ++ [32] ++ USER_STRING ++ [32] ++ fmt_u 1 ++ [10]
          ++ [97] ++ [10]) := by
  decide

/-- C2. For every clock reading whose timestamp `T = micros tp` is below
`2 ^ 63` (each reading of the monotonic clock is) and every window size with
columns and rows in 0..65535: whatever becomes of the write, `record_resize`
makes exactly one `swrite` call on the log and hands it the decimal digits of
`T`, a space, `SIZE`, a space, the decimal columns, a space, the decimal rows
and one newline, and nothing after it; `save_session` passes the columns
first, then the rows, before the loop and in a turn that serves the resize
signal. When the write does not fail, that line is exactly what the log
receives, in `record_resize` and at the two places of `save_session`. -/
theorem record_resize_text (tp : Timespec) (columns rows : Nat)
    (hT : micros tp < 2 ^ 63) (hc : columns < 65536) (hr : rows < 65536) :
    (∀ w1 : Script,
      record_resize (some tp) (columns : Int) (rows : Int) w1
        = some (swrite Fd.log
            (fmt_u (micros tp) ++ [32] ++ SIZE_STRING ++ [32] ++ fmt_u columns ++ [32]
              ++ fmt_u rows ++ [10]) w1).1
      ∧ TermSave.session_start
          { sigmask_ok := true, winch_fd := 3,
            winsz := some { ws_row := rows, ws_col := columns },
            set_ok := true, clock := some tp, log1 := w1 }
        = (Status.running,
            [Effect.get_winsize (some { ws_row := rows, ws_col := columns }),
              Effect.set_winsize { ws_row := rows, ws_col := columns } true]
            ++ (swrite Fd.log
              (fmt_u (micros tp) ++ [32] ++ SIZE_STRING ++ [32] ++ fmt_u columns ++ [32]
                ++ fmt_u rows ++ [10]) w1).1)
      ∧ TermSave.loop_body
          { resize_turn with
            winsz := some { ws_row := rows, ws_col := columns },
            clock := some tp, log1 := w1 }
        = (Status.running,
            [Effect.read Fd.winch [],
              Effect.get_winsize (some { ws_row := rows, ws_col := columns })]
            ++ (swrite Fd.log
              (fmt_u (micros tp) ++ [32] ++ SIZE_STRING ++ [32] ++ fmt_u columns ++ [32]
                ++ fmt_u rows ++ [10]) w1).1
            ++ [Effect.set_winsize { ws_row := rows, ws_col := columns } true]))
    ∧ (∀ w1 : Script, none ∉ w1 →
      (record_resize (some tp) (columns : Int) (rows : Int) w1).map (written Fd.log)
        = some (fmt_u (micros tp) ++ [32] ++ SIZE_STRING ++ [32] ++ fmt_u columns ++ [32]
            ++ fmt_u rows ++ [10])
      ∧ written Fd.log
          (TermSave.session_start
            { sigmask_ok := true, winch_fd := 3,
              winsz := some { ws_row := rows, ws_col := columns },
              set_ok := true, clock := some tp, log1 := w1 }).2
        = fmt_u (micros tp) ++ [32] ++ SIZE_STRING ++ [32] ++ fmt_u columns ++ [32]
            ++ fmt_u rows ++ [10]
      ∧ written Fd.log
          (TermSave.loop_body
            { resize_turn with
              winsz := some { ws_row := rows, ws_col := columns },
              clock := some tp, log1 := w1 }).2
        = fmt_u (micros tp) ++ [32] ++ SIZE_STRING ++ [32] ++ fmt_u columns ++ [32]
            ++ fmt_u rows ++ [10]) := by
  have hshort := resize_header_length (micros tp) (columns : Int) (rows : Int)
    (by constructor <;> omega) (by constructor <;> omega)
  have hcall : ∀ w1 : Script,
      record_resize (some tp) (columns : Int) (rows : Int) w1
        = some (swrite Fd.log
            (fmt_u (micros tp) ++ [32] ++ SIZE_STRING ++ [32] ++ fmt_u columns ++ [32]
              ++ fmt_u rows ++ [10]) w1).1 := by
    intro w1
    rw [record_resize_eq tp _ _ w1 (by omega), resize_header_text _ _ _ hT]
  have hstart : ∀ w1 : Script,
      TermSave.session_start
          { sigmask_ok := true, winch_fd := 3,
            winsz := some { ws_row := rows, ws_col := columns },
            set_ok := true, clock := some tp, log1 := w1 }
        = (Status.running,
            [Effect.get_winsize (some { ws_row := rows, ws_col := columns }),
              Effect.set_winsize { ws_row := rows, ws_col := columns } true]
            ++ (swrite Fd.log
              (fmt_u (micros tp) ++ [32] ++ SIZE_STRING ++ [32] ++ fmt_u columns ++ [32]
                ++ fmt_u rows ++ [10]) w1).1) := by
    intro w1
    simp [TermSave.session_start, hcall w1]
  have hturn : ∀ w1 : Script,
      TermSave.loop_body
          { resize_turn with
            winsz := some { ws_row := rows, ws_col := columns },
            clock := some tp, log1 := w1 }
        = (Status.running,
            [Effect.read Fd.winch [],
              Effect.get_winsize (some { ws_row := rows, ws_col := columns })]
            ++ (swrite Fd.log
              (fmt_u (micros tp) ++ [32] ++ SIZE_STRING ++ [32] ++ fmt_u columns ++ [32]
                ++ fmt_u rows ++ [10]) w1).1
            ++ [Effect.set_winsize { ws_row := rows, ws_col := columns } true]) := by
    intro w1
    simp [TermSave.loop_body, TermSave.on_resize, hcall w1, POLLIN, resize_turn, no_event]
  refine ⟨fun w1 => ⟨hcall w1, hstart w1, hturn w1⟩, fun w1 h1 => ⟨?_, ?_, ?_⟩⟩
  · rw [hcall w1, Option.map_some', (swrite_written_self Fd.log w1 _ h1).1]
  · rw [hstart w1]
    simp [written, (swrite_written_self Fd.log w1 _ h1).1]
  · rw [hturn w1]
    simp [written, written_append, (swrite_written_self Fd.log w1 _ h1).1]

/-- C2, at the window size of 80 columns and 24 rows at the timestamp
1500000: the log receives `1500000 SIZE 80 24` and a newline. -/
theorem record_resize_text_sample :
    (record_resize (some sample_clock) 80 24 []).map (written Fd.log)
      = some [49, 53, 48, 48, 48, 48, 48, 32, 83, 73, 90, 69, 32, 56, 48, 32, 50, 52, 10] :=
  ((record_resize_text sample_clock 80 24 (by decide) (by decide) (by decide)).2 []
    (by decide)).1

/-- The same reading of the timestamp word in `record_resize`: at
`late_clock` the line starts with a minus sign. -/
theorem record_resize_high_timestamp :
    micro_timestamp (some late_clock) = some 9223372036854775808
    ∧ (record_resize (some late_clock) 80 24 []).map (written Fd.log)
      = some [45, 57, 50, 50, 51, 51, 55, 50, 48, 51, 54, 56, 53, 52, 55, 55, 53, 56, 48, 56,
          32, 83, 73, 90, 69, 32, 56, 48, 32, 50, 52, 10]
    ∧ (record_resize (some late_clock) 80 24 []).map (written Fd.log)
      ≠ some (fmt_u 9223372036854775808 ++ [32] ++ SIZE_STRING ++ [32] ++ fmt_u 80 ++ [32]
          ++ fmt_u 24 ++ [10]) := by
  decide

/-- C9. For every timestamp word `now` (it is read modulo `2 ^ 64`), each of
the tags `USER` and `HOST`, every length from 0 to `buf_size`, and every
width and height in 0..65535, the header of `record_string` and the line of
`record_resize` are shorter than 2048 bytes; so with a working clock neither
function stops at an `assert`, and the whole header, untruncated, is what is
handed to `swrite`. -/
theorem header_within_bound (now : Nat) (tag : List Nat) (num : Int) (width height : Nat)
    (htag : tag = USER_STRING ∨ tag = HOST_STRING)
    (hnum : 0 ≤ num ∧ num ≤ (buf_size : Int)) (hw : width < 65536) (hh : height < 65536) :
    (string_header now tag num).length < 2048
    ∧ (resize_header now (width : Int) (height : Int)).length < 2048
    ∧ (∀ (tp : Timespec) (buf : List Nat) (w1 w2 w3 : Script),
        record_string (some tp) buf num tag w1 w2 w3
          = some ((swrite Fd.log (string_header (micros tp) tag num) w1).1
            ++ (swrite Fd.log (buf.take num.toNat) w2).1 ++ (swrite Fd.log [10] w3).1))
    ∧ (∀ (tp : Timespec) (w1 : Script),
        record_resize (some tp) (width : Int) (height : Int) w1
          = some (swrite Fd.log (resize_header (micros tp) (width : Int) (height : Int)) w1).1)
    := by
  have htl : tag.length = 4 := by rcases htag with h | h <;> subst h <;> rfl
  have hb : (buf_size : Int) = 16384 := rfl
  have hs : ∀ t, (string_header t tag num).length ≤ 47 := fun t =>
    string_header_length t tag num htl (by omega) (by omega)
  have hrz : ∀ t, (resize_header t (width : Int) (height : Int)).length ≤ 68 := fun t =>
    resize_header_length t _ _ (by constructor <;> omega) (by constructor <;> omega)
  refine ⟨by have := hs now; omega, by have := hrz now; omega, ?_, ?_⟩
  · intro tp buf w1 w2 w3
    exact record_string_eq tp buf num tag w1 w2 w3 (by have := hs (micros tp); omega)
  · intro tp w1
    exact record_resize_eq tp _ _ w1 (by have := hrz (micros tp); omega)

/-- C9, at the largest 64-bit timestamp word, the tag `HOST`, a full buffer
of 16384 bytes and the window size 65535 by 65535. -/
theorem header_within_bound_witness :
    (string_header (2 ^ 64 - 1) HOST_STRING 16384).length < 2048
    ∧ (resize_header (2 ^ 64 - 1) 65535 65535).length < 2048 :=
  ⟨(header_within_bound (2 ^ 64 - 1) HOST_STRING 16384 65535 65535 (Or.inr rfl)
      (by decide) (by decide) (by decide)).1,
    (header_within_bound (2 ^ 64 - 1) HOST_STRING 16384 65535 65535 (Or.inr rfl)
      (by decide) (by decide) (by decide)).2.1⟩

/-! ## One turn of the loop -/

theorem window_calls_append (a b : List Effect) :
    window_calls (a ++ b) = window_calls a + window_calls b := by
  induction a with
  | nil => simp [window_calls]
  | cons x xs ih =>
    cases x <;> simp [window_calls, ih] <;> omega

theorem swrite_serviced (fd : Fd) (buf : List Nat) (w : Script) :
    serviced (swrite fd buf w).1 = [] :=
  (swrite_quiet [] fd w buf).2.1

theorem swrite_observed (fd : Fd) (buf : List Nat) (w : Script) :
    observed (swrite fd buf w).1 = [] :=
  (swrite_quiet [] fd w buf).2.2

theorem swrite_bytes_read (fds : List Fd) (fd : Fd) (buf : List Nat) (w : Script) :
    bytes_read fds (swrite fd buf w).1 = [] :=
  (swrite_quiet fds fd w buf).1

theorem swrite_window_calls (fd : Fd) (w : Script) :
    ∀ buf, window_calls (swrite fd buf w).1 = 0 := by
  induction w with
  | nil =>
    intro buf
    cases buf <;> simp [swrite, window_calls]
  | cons r rest ih =>
    intro buf
    cases buf with
    | nil => simp [swrite, window_calls]
    | cons b bs =>
      cases r with
      | none => simp [swrite, window_calls]
      | some k =>
        simp only [swrite, window_calls]
        exact ih _

theorem record_string_window_calls (clock : Option Timespec) (buf : List Nat) (num : Int)
    (tag : List Nat) (w1 w2 w3 : Script) (logged : List Effect)
    (h : record_string clock buf num tag w1 w2 w3 = some logged) :
    window_calls logged = 0 := by
  unfold record_string at h
  split at h
  · exact absurd h (by simp)
  · dsimp only at h
    split at h
    · exact absurd h (by simp)
    · split at h
      · exact absurd h (by simp)
      · simp only [Option.some.injEq] at h
        subst h
        simp [window_calls_append, swrite_window_calls]

theorem sys_read_take (avail : Option (List Nat)) (count : Nat) :
    (sys_read avail count).2.take (sys_read avail count).1.toNat = (sys_read avail count).2 := by
  cases avail with
  | none => simp [sys_read]
  | some d =>
    simp only [sys_read, Int.toNat_ofNat]
    exact List.take_of_length_le (le_refl _)

theorem relay_save_user (e : Env) :
    TermSave.on_user e = relay Fd.stdin Fd.child (some USER_STRING) e := rfl

theorem relay_save_host (e : Env) :
    TermSave.on_host e = relay Fd.child Fd.stdin (some HOST_STRING) e := rfl

theorem relay_receive_user (e : Env) :
    TermReceive.on_user e = relay Fd.stdin Fd.child none e := rfl

theorem relay_receive_host (e : Env) :
    TermReceive.on_host e = relay Fd.child Fd.stdin none e := rfl

theorem relay_receive_socket (e : Env) :
    TermReceive.on_socket e = relay Fd.sock Fd.child none e := rfl

theorem sys_read_zero (avail : Option (List Nat)) (count : Nat)
    (h : (sys_read avail count).1 = 0) : (sys_read avail count).2 = [] := by
  cases avail with
  | none => simp [sys_read] at h
  | some d =>
    simp only [sys_read] at h ⊢
    exact List.length_eq_zero.mp (by omega)

theorem sys_read_neg (avail : Option (List Nat)) (count : Nat)
    (h : (sys_read avail count).1 < 0) : (sys_read avail count).2 = [] := by
  cases avail with
  | none => simp [sys_read]
  | some d =>
    simp only [sys_read] at h
    omega

theorem sys_read_length (avail : Option (List Nat)) (count : Nat) :
    (sys_read avail count).2.length ≤ count
      ∧ (0 ≤ (sys_read avail count).1 →
          (sys_read avail count).1 = ((sys_read avail count).2.length : Int)) := by
  cases avail with
  | none => simp [sys_read]
  | some d =>
    refine ⟨?_, fun _ => rfl⟩
    show (d.take count).length ≤ count
    rw [List.length_take]
    exact Nat.min_le_left _ _

/-- The three ways a data branch can go: nothing was read and the session
ends with the read as its only effect; the record function stops at an
`assert`; or the chunk is recorded (when there is a tag) and sent along. -/
theorem relay_shape (src dst : Fd) (tag : Option (List Nat)) (e : Env) :
    ((sys_read e.input buf_size).2 = []
      ∧ relay src dst tag e = (Status.ended, [Effect.read src []]))
    ∨ ((sys_read e.input buf_size).2 ≠ []
      ∧ ((∃ t, tag = some t
            ∧ record_string e.clock (sys_read e.input buf_size).2
                ((sys_read e.input buf_size).2.length : Int) t e.log1 e.log2 e.log3 = none
            ∧ relay src dst tag e
                = (Status.aborted, [Effect.read src (sys_read e.input buf_size).2]))
        ∨ (∃ logged, ((tag = none ∧ logged = [])
              ∨ (∃ t, tag = some t
                  ∧ record_string e.clock (sys_read e.input buf_size).2
                      ((sys_read e.input buf_size).2.length : Int) t e.log1 e.log2 e.log3
                    = some logged))
            ∧ relay src dst tag e
                = ((if (swrite dst (sys_read e.input buf_size).2 e.fwd).2 < 0
                    then Status.ended else Status.running),
                  [Effect.read src (sys_read e.input buf_size).2] ++ logged
                    ++ (swrite dst (sys_read e.input buf_size).2 e.fwd).1)))) := by
  unfold relay
  dsimp only
  by_cases h0 : (sys_read e.input buf_size).1 = 0
  · left
    have hz := sys_read_zero _ _ h0
    simp [h0, hz]
  · by_cases h1 : (sys_read e.input buf_size).1 < 0
    · left
      have hz := sys_read_neg _ _ h1
      simp [h0, h1, hz]
    · right
      have hlen := (sys_read_length e.input buf_size).2 (by omega)
      have hne : (sys_read e.input buf_size).2 ≠ [] := by
        intro hnil
        rw [hnil] at hlen
        simp at hlen
        exact h0 hlen
      refine ⟨hne, ?_⟩
      simp only [h0, h1, if_false, sys_read_take]
      cases tag with
      | none =>
        right
        refine ⟨[], Or.inl ⟨rfl, rfl⟩, ?_⟩
        dsimp only
        split_ifs <;> simp
      | some t =>
        dsimp only
        rw [← hlen]
        rcases hl : record_string e.clock (sys_read e.input buf_size).2
            (sys_read e.input buf_size).1 t e.log1 e.log2 e.log3 with _ | logged
        · left
          exact ⟨t, rfl, hl, rfl⟩
        · right
          refine ⟨logged, Or.inr ⟨t, rfl, hl⟩, ?_⟩
          dsimp only
          split_ifs <;> rfl

theorem relay_serviced (src dst : Fd) (tag : Option (List Nat)) (e : Env) :
    serviced (relay src dst tag e).2 = [src] ∧ window_calls (relay src dst tag e).2 = 0 := by
  rcases relay_shape src dst tag e with ⟨_, h⟩ | ⟨_, ⟨t, _, _, h⟩ | ⟨logged, hl, h⟩⟩
  · rw [h]; simp [serviced, window_calls]
  · rw [h]; simp [serviced, window_calls]
  · rw [h]
    have hq : serviced logged = [] ∧ window_calls logged = 0 := by
      rcases hl with ⟨_, hl⟩ | ⟨t, _, hl⟩
      · subst hl; simp [serviced, window_calls]
      · exact ⟨(record_string_quiet _ _ _ _ _ _ _ logged [] hl).2.2.1,
          record_string_window_calls _ _ _ _ _ _ _ logged hl⟩
    simp [serviced, window_calls, serviced_append, window_calls_append, swrite_serviced,
      swrite_window_calls, hq.1, hq.2]

theorem relay_eof (src dst : Fd) (tag : Option (List Nat)) (e : Env)
    (hz : (sys_read e.input buf_size).1 = 0) :
    relay src dst tag e = (Status.ended, [Effect.read src []]) := by
  rcases relay_shape src dst tag e with ⟨_, h⟩ | ⟨hne, _⟩
  · exact h
  · exact absurd (sys_read_zero _ _ hz) hne

theorem save_on_resize_serviced (e : Env) : serviced (TermSave.on_resize e).2 = [Fd.winch] := by
  unfold TermSave.on_resize
  by_cases h1 : e.winch_read = sizeof_siginfo
  · by_cases h2 : e.ssi_signo = SIGWINCH
    · rcases hw : e.winsz with _ | ws
      · simp [h1, h2, serviced]
      · rcases hl : record_resize e.clock (ws.ws_col : Int) (ws.ws_row : Int) e.log1
          with _ | logged
        · simp [h1, h2, hl, serviced]
        · have hq := (record_resize_quiet _ _ _ _ logged [] hl).2.2.1
          by_cases h3 : e.set_ok = true <;>
            simp [h1, h2, hl, h3, serviced, serviced_append, hq]
    · simp [h1, h2, serviced]
  · simp [h1, serviced]

theorem receive_on_resize_serviced (e : Env) :
    serviced (TermReceive.on_resize e).2 = [Fd.winch] := by
  unfold TermReceive.on_resize
  by_cases h1 : e.winch_read = sizeof_siginfo
  · by_cases h2 : e.ssi_signo = SIGWINCH
    · rcases hw : e.winsz with _ | ws
      · simp [h1, h2, serviced]
      · by_cases h3 : e.set_ok = true <;> simp [h1, h2, h3, serviced]
    · simp [h1, h2, serviced]
  · simp [h1, serviced]

/-! ## The claims about one turn -/

/-- C6. In both programs a turn of the loop reads from at most one channel,
the first readable one in the order LocalUser, ChildProgram, ResizeSignal,
RemoteInjector (none when `poll` fails). When LocalUser and ChildProgram are
both readable only LocalUser is read; when ChildProgram is readable neither
the resize signal nor the socket is read and no window-size call is made. -/
theorem one_channel_per_turn (e : Env) :
    serviced (TermSave.loop_body e).2
      = (if e.poll_ret < 0 then [] else (TermSave.first_readable e).toList)
    ∧ serviced (TermReceive.loop_body e).2
      = (if e.poll_ret < 0 then [] else (TermReceive.first_readable e).toList)
    ∧ (serviced (TermSave.loop_body e).2).length ≤ 1
    ∧ (serviced (TermReceive.loop_body e).2).length ≤ 1
    ∧ (0 ≤ e.poll_ret → readable e.revents0 = true → readable e.revents1 = true →
        serviced (TermSave.loop_body e).2 = [Fd.stdin]
        ∧ serviced (TermReceive.loop_body e).2 = [Fd.stdin])
    ∧ (readable e.revents1 = true →
        Fd.winch ∉ serviced (TermSave.loop_body e).2
        ∧ Fd.winch ∉ serviced (TermReceive.loop_body e).2
        ∧ Fd.sock ∉ serviced (TermSave.loop_body e).2
        ∧ Fd.sock ∉ serviced (TermReceive.loop_body e).2
        ∧ window_calls (TermSave.loop_body e).2 = 0
        ∧ window_calls (TermReceive.loop_body e).2 = 0) := by
  have hs : serviced (TermSave.loop_body e).2
      = (if e.poll_ret < 0 then [] else (TermSave.first_readable e).toList) := by
    unfold TermSave.loop_body TermSave.first_readable
    by_cases hp : e.poll_ret < 0
    · simp [hp, serviced]
    · by_cases h0 : e.revents0 &&& POLLIN = 0
      · by_cases h1 : e.revents1 &&& POLLIN = 0
        · by_cases h2 : e.revents2 &&& POLLIN = 0
          · simp only [hp, h0, h1, h2, if_false, ne_eq, not_true_eq_false]
            split_ifs <;> simp [serviced, readable, h0, h1, h2]
          · simp [hp, h0, h1, h2, readable, save_on_resize_serviced]
        · simp [hp, h0, h1, readable, relay_save_host, (relay_serviced _ _ _ e).1]
      · simp [hp, h0, readable, relay_save_user, (relay_serviced _ _ _ e).1]
  have hr : serviced (TermReceive.loop_body e).2
      = (if e.poll_ret < 0 then [] else (TermReceive.first_readable e).toList) := by
    unfold TermReceive.loop_body TermReceive.first_readable
    by_cases hp : e.poll_ret < 0
    · simp [hp, serviced]
    · by_cases h0 : e.revents0 &&& POLLIN = 0
      · by_cases h1 : e.revents1 &&& POLLIN = 0
        · by_cases h2 : e.revents2 &&& POLLIN = 0
          · by_cases h3 : e.revents3 &&& POLLIN = 0
            · simp only [hp, h0, h1, h2, h3, if_false, ne_eq, not_true_eq_false]
              split_ifs <;> simp [serviced, readable, h0, h1, h2, h3]
            · simp [hp, h0, h1, h2, h3, readable, relay_receive_socket,
                (relay_serviced _ _ _ e).1]
          · simp [hp, h0, h1, h2, readable, receive_on_resize_serviced]
        · simp [hp, h0, h1, readable, relay_receive_host, (relay_serviced _ _ _ e).1]
      · simp [hp, h0, readable, relay_receive_user, (relay_serviced _ _ _ e).1]
  have hws : readable e.revents1 = true → window_calls (TermSave.loop_body e).2 = 0 := by
    intro h1
    have h1n : ¬ e.revents1 &&& POLLIN = 0 := by simpa [readable] using h1
    unfold TermSave.loop_body
    by_cases hp : e.poll_ret < 0
    · simp [hp, window_calls]
    · by_cases h0 : e.revents0 &&& POLLIN = 0
      · simp [hp, h0, h1n, relay_save_host, (relay_serviced _ _ _ e).2]
      · simp [hp, h0, relay_save_user, (relay_serviced _ _ _ e).2]
  have hwr : readable e.revents1 = true → window_calls (TermReceive.loop_body e).2 = 0 := by
    intro h1
    have h1n : ¬ e.revents1 &&& POLLIN = 0 := by simpa [readable] using h1
    unfold TermReceive.loop_body
    by_cases hp : e.poll_ret < 0
    · simp [hp, window_calls]
    · by_cases h0 : e.revents0 &&& POLLIN = 0
      · simp [hp, h0, h1n, relay_receive_host, (relay_serviced _ _ _ e).2]
      · simp [hp, h0, relay_receive_user, (relay_serviced _ _ _ e).2]
  refine ⟨hs, hr, ?_, ?_, ?_, ?_⟩
  · rw [hs]
    split_ifs
    · simp
    · cases TermSave.first_readable e <;> simp
  · rw [hr]
    split_ifs
    · simp
    · cases TermReceive.first_readable e <;> simp
  · intro hp h0 _
    have hp2 : ¬ e.poll_ret < 0 := by omega
    rw [hs, hr]
    simp [hp2, TermSave.first_readable, TermReceive.first_readable, h0]
  · intro h1
    refine ⟨?_, ?_, ?_, ?_, hws h1, hwr h1⟩
    · rw [hs]
      split_ifs
      · simp
      · by_cases h0 : readable e.revents0 = true <;>
          simp [TermSave.first_readable, h0, h1]
    · rw [hr]
      split_ifs
      · simp
      · by_cases h0 : readable e.revents0 = true <;>
          simp [TermReceive.first_readable, h0, h1]
    · rw [hs]
      split_ifs
      · simp
      · by_cases h0 : readable e.revents0 = true <;>
          simp [TermSave.first_readable, h0, h1]
    · rw [hr]
      split_ifs
      · simp
      · by_cases h0 : readable e.revents0 = true <;>
          simp [TermReceive.first_readable, h0, h1]

theorem save_loop_ended (tr : List Effect) (es : List Env) :
    TermSave.loop (Status.ended, tr) es = (Status.ended, tr) := by
  cases es <;> rfl

theorem save_loop_aborted (tr : List Effect) (es : List Env) :
    TermSave.loop (Status.aborted, tr) es = (Status.aborted, tr) := by
  cases es <;> rfl

theorem receive_loop_ended (tr : List Effect) (es : List Env) :
    TermReceive.loop (Status.ended, tr) es = (Status.ended, tr) := by
  cases es <;> rfl

theorem receive_loop_aborted (tr : List Effect) (es : List Env) :
    TermReceive.loop (Status.aborted, tr) es = (Status.aborted, tr) := by
  cases es <;> rfl

theorem save_loop_nil (st : Status) (tr : List Effect) :
    TermSave.loop (st, tr) [] = (st, tr) := by
  cases st <;> rfl

theorem receive_loop_nil (st : Status) (tr : List Effect) :
    TermReceive.loop (st, tr) [] = (st, tr) := by
  cases st <;> rfl

theorem save_loop_step (tr : List Effect) (e : Env) (es : List Env) :
    TermSave.loop (Status.running, tr) (e :: es)
      = TermSave.loop ((TermSave.loop_body e).1, tr ++ (TermSave.loop_body e).2) es := rfl

theorem receive_loop_step (tr : List Effect) (e : Env) (es : List Env) :
    TermReceive.loop (Status.running, tr) (e :: es)
      = TermReceive.loop ((TermReceive.loop_body e).1, tr ++ (TermReceive.loop_body e).2) es :=
  rfl

/-- C7. In both programs, in a turn in which `poll` succeeded and the read of
the turn returns zero bytes: if LocalUser is not readable and ChildProgram is,
the session ends in that turn, whatever the resize signal and the socket
report and whatever the environment would answer later, and the only effect
of the turn is the read on the child, so nothing more is written to any
descriptor; the same holds for the read on LocalUser when LocalUser is
readable. -/
theorem eof_ends_session (e : Env) (tr : List Effect) (es : List Env)
    (hp : 0 ≤ e.poll_ret) (hz : (sys_read e.input buf_size).1 = 0) :
    (readable e.revents0 = false → readable e.revents1 = true →
      TermSave.loop (Status.running, tr) (e :: es)
        = (Status.ended, tr ++ [Effect.read Fd.child []])
      ∧ TermReceive.loop (Status.running, tr) (e :: es)
        = (Status.ended, tr ++ [Effect.read Fd.child []])
      ∧ (∀ fd, written fd (TermSave.loop (Status.running, tr) (e :: es)).2 = written fd tr)
      ∧ (∀ fd, written fd (TermReceive.loop (Status.running, tr) (e :: es)).2
          = written fd tr))
    ∧ (readable e.revents0 = true →
      TermSave.loop (Status.running, tr) (e :: es)
        = (Status.ended, tr ++ [Effect.read Fd.stdin []])
      ∧ TermReceive.loop (Status.running, tr) (e :: es)
        = (Status.ended, tr ++ [Effect.read Fd.stdin []])
      ∧ (∀ fd, written fd (TermSave.loop (Status.running, tr) (e :: es)).2 = written fd tr)
      ∧ (∀ fd, written fd (TermReceive.loop (Status.running, tr) (e :: es)).2
          = written fd tr)) := by
  have hp2 : ¬ e.poll_ret < 0 := by omega
  constructor
  · intro h0 h1
    have h0n : e.revents0 &&& POLLIN = 0 := by simpa [readable] using h0
    have h1n : ¬ e.revents1 &&& POLLIN = 0 := by simpa [readable] using h1
    have hs : TermSave.loop_body e = (Status.ended, [Effect.read Fd.child []]) := by
      unfold TermSave.loop_body
      simp only [hp2, h0n, h1n, if_false, ne_eq, not_true_eq_false, not_false_eq_true, if_true]
      rw [relay_save_host]
      exact relay_eof _ _ _ e hz
    have hr : TermReceive.loop_body e = (Status.ended, [Effect.read Fd.child []]) := by
      unfold TermReceive.loop_body
      simp only [hp2, h0n, h1n, if_false, ne_eq, not_true_eq_false, not_false_eq_true, if_true]
      rw [relay_receive_host]
      exact relay_eof _ _ _ e hz
    rw [save_loop_step, receive_loop_step, hs, hr, save_loop_ended, receive_loop_ended]
    refine ⟨rfl, rfl, ?_, ?_⟩ <;> intro fd <;> simp [written_append, written]
  · intro h0
    have h0n : ¬ e.revents0 &&& POLLIN = 0 := by simpa [readable] using h0
    have hs : TermSave.loop_body e = (Status.ended, [Effect.read Fd.stdin []]) := by
      unfold TermSave.loop_body
      simp only [hp2, h0n, if_false, ne_eq, not_false_eq_true, if_true]
      rw [relay_save_user]
      exact relay_eof _ _ _ e hz
    have hr : TermReceive.loop_body e = (Status.ended, [Effect.read Fd.stdin []]) := by
      unfold TermReceive.loop_body
      simp only [hp2, h0n, if_false, ne_eq, not_false_eq_true, if_true]
      rw [relay_receive_user]
      exact relay_eof _ _ _ e hz
    rw [save_loop_step, receive_loop_step, hs, hr, save_loop_ended, receive_loop_ended]
    refine ⟨rfl, rfl, ?_, ?_⟩ <;> intro fd <;> simp [written_append, written]

/-- C7, at a turn in which the child is at end of file while the resize
signal and the socket are readable as well, followed by a turn the loop never
reaches: the session has ended and its only new effect is the read. -/
theorem eof_ends_session_witness :
    TermSave.loop (Status.running, []) [host_eof, user_types]
      = (Status.ended, [Effect.read Fd.child []])
    ∧ TermReceive.loop (Status.running, []) [host_eof, user_types]
      = (Status.ended, [Effect.read Fd.child []]) :=
  ⟨((eof_ends_session host_eof [] [user_types] (by decide) (by decide)).1
      (by decide) (by decide)).1,
    ((eof_ends_session host_eof [] [user_types] (by decide) (by decide)).1
      (by decide) (by decide)).2.1⟩

/-- C8, as stated, fails: in the turn `zero_datagram` the socket is the
channel served and its read returns zero bytes, and term-receive leaves the
loop; a later turn is never reached. -/
theorem socket_eof_leaves_running_counterexample :
    serviced (TermReceive.loop_body zero_datagram).2 = [Fd.sock]
    ∧ (sys_read zero_datagram.input buf_size).1 = 0
    ∧ (TermReceive.loop_body zero_datagram).1 ≠ Status.running
    ∧ TermReceive.loop (Status.running, []) [zero_datagram, user_types]
      = (Status.ended, [Effect.read Fd.sock []]) := by
  decide

/-- C8, amended. In term-receive, in every turn in which the socket is the
channel served (`poll` succeeded, none of LocalUser, ChildProgram and
ResizeSignal is readable, the socket is) and its read returns zero bytes, the
session ends in that turn: the only effect is the read, and whatever the
environment would answer later is never looked at. -/
theorem socket_eof_ends_session (e : Env) (tr : List Effect) (es : List Env)
    (hp : 0 ≤ e.poll_ret) (h0 : readable e.revents0 = false)
    (h1 : readable e.revents1 = false) (h2 : readable e.revents2 = false)
    (h3 : readable e.revents3 = true) (hz : (sys_read e.input buf_size).1 = 0) :
    TermReceive.loop (Status.running, tr) (e :: es)
      = (Status.ended, tr ++ [Effect.read Fd.sock []]) := by
  have hp2 : ¬ e.poll_ret < 0 := by omega
  have h0n : e.revents0 &&& POLLIN = 0 := by simpa [readable] using h0
  have h1n : e.revents1 &&& POLLIN = 0 := by simpa [readable] using h1
  have h2n : e.revents2 &&& POLLIN = 0 := by simpa [readable] using h2
  have h3n : ¬ e.revents3 &&& POLLIN = 0 := by simpa [readable] using h3
  have hr : TermReceive.loop_body e = (Status.ended, [Effect.read Fd.sock []]) := by
    unfold TermReceive.loop_body
    simp only [hp2, h0n, h1n, h2n, h3n, if_false, ne_eq, not_true_eq_false, not_false_eq_true,
      if_true]
    rw [relay_receive_socket]
    exact relay_eof _ _ _ e hz
  rw [receive_loop_step, hr, receive_loop_ended]

/-- C8, amended, at the turn `zero_datagram`. -/
theorem socket_eof_ends_session_witness :
    TermReceive.loop (Status.running, []) [zero_datagram, user_types]
      = (Status.ended, [] ++ [Effect.read Fd.sock []]) :=
  socket_eof_ends_session zero_datagram [] [user_types] (by decide) (by decide) (by decide)
    (by decide) (by decide) (by decide)

/-- C10, on the code: in the turn `resize_turn` term-save writes the record
`1500000 SIZE 100 40` to the log before it pushes the size to the child; when
the child refuses the size (`resize_turn_refused`) the record is in the log
all the same and the session ends. Before the loop (`sample_start`) the order
is the other one: the size is pushed first and recorded afterwards. -/
theorem resize_record_precedes_push :
    TermSave.loop_body resize_turn
      = (Status.running,
          [Effect.read Fd.winch [], Effect.get_winsize (some { ws_row := 40, ws_col := 100 }),
            Effect.write Fd.log
              [49, 53, 48, 48, 48, 48, 48, 32, 83, 73, 90, 69, 32, 49, 48, 48, 32, 52, 48, 10],
            Effect.set_winsize { ws_row := 40, ws_col := 100 } true])
    ∧ TermSave.loop_body resize_turn_refused
      = (Status.ended,
          [Effect.read Fd.winch [], Effect.get_winsize (some { ws_row := 40, ws_col := 100 }),
            Effect.write Fd.log
              [49, 53, 48, 48, 48, 48, 48, 32, 83, 73, 90, 69, 32, 49, 48, 48, 32, 52, 48, 10],
            Effect.set_winsize { ws_row := 40, ws_col := 100 } false])
    ∧ TermSave.session_start sample_start
      = (Status.running,
          [Effect.get_winsize (some { ws_row := 24, ws_col := 80 }),
            Effect.set_winsize { ws_row := 24, ws_col := 80 } true,
            Effect.write Fd.log
              [49, 53, 48, 48, 48, 48, 48, 32, 83, 73, 90, 69, 32, 56, 48, 32, 50, 52, 10]]) := by
  decide

/-! ## Decoding what the record functions wrote -/

theorem split_at_first_append (sep : Nat) (h t : List Nat) (hs : sep ∉ h) :
    split_at_first sep (h ++ sep :: t) = some (h, t) := by
  induction h with
  | nil => simp [split_at_first]
  | cons b bs ih =>
    have hb : b ≠ sep := fun hb => hs (by simp [hb])
    have hbs : sep ∉ bs := fun hm => hs (List.mem_cons_of_mem _ hm)
    simp [split_at_first, hb, ih hbs]

theorem fmt_u_no_newline (n : Nat) : 10 ∉ fmt_u n := by
  intro h
  have := fmt_u_digits n 10 h
  omega

theorem fmt_u_no_space (n : Nat) : 32 ∉ fmt_u n := by
  intro h
  have := fmt_u_digits n 32 h
  omega

theorem fmt_ld_no_newline (v : Int) : 10 ∉ fmt_ld v := by
  unfold fmt_ld
  split
  · intro h
    rcases List.mem_cons.mp h with h | h
    · omega
    · exact fmt_u_no_newline _ h
  · exact fmt_u_no_newline _

theorem fmt_ld_no_space (v : Int) : 32 ∉ fmt_ld v := by
  unfold fmt_ld
  split
  · intro h
    rcases List.mem_cons.mp h with h | h
    · omega
    · exact fmt_u_no_space _ h
  · exact fmt_u_no_space _

theorem parse_ld_digits (n : Nat) : parse_ld (fmt_u n) = some (n : Int) := by
  unfold parse_ld
  split
  · rename_i ds hds
    have := fmt_u_digits n 45 (by rw [hds]; simp)
    omega
  · rw [parse_dec_fmt_u]
    rfl

theorem parse_ld_fmt_ld (v : Int) : parse_ld (fmt_ld v) = some v := by
  unfold fmt_ld
  split
  · rename_i hneg
    show (parse_dec (fmt_u v.natAbs)).map (fun n => -(n : Int)) = some v
    rw [parse_dec_fmt_u]
    show some (-((v.natAbs : Nat) : Int)) = some v
    rw [Option.some.injEq]
    omega
  · rename_i hpos
    rw [parse_ld_digits]
    simp only [Option.some.injEq]
    omega

theorem word_of_as_long (w : Nat) (h : w < 2 ^ 64) : word_of_long (as_long w) = w := by
  have h1 : w % 2 ^ 64 = w := Nat.mod_eq_of_lt h
  unfold word_of_long as_long
  rw [h1]
  split <;> omega

theorem decode_one_chunk (t : Nat) (o : Origin) (p rest : List Nat) (ht : t < 2 ^ 64) :
    decode_one ((Record.chunk t o p).encode ++ rest) = some (Record.chunk t o p, rest) := by
  have hin : (Record.chunk t o p).encode ++ rest
      = (fmt_ld (as_long t) ++ 32 :: (o.tag ++ 32 :: fmt_u p.length))
          ++ 10 :: (p ++ 10 :: rest) := by
    simp [Record.encode]
  have htag10 : 10 ∉ o.tag := by cases o <;> decide
  have htag32 : 32 ∉ o.tag := by cases o <;> decide
  have hno10 : 10 ∉ fmt_ld (as_long t) ++ 32 :: (o.tag ++ 32 :: fmt_u p.length) := by
    simp [fmt_u_no_newline, fmt_ld_no_newline, htag10]
  have hsize : o.tag ≠ SIZE_STRING := by cases o <;> decide
  have horigin : parse_origin o.tag = some o := by cases o <;> decide
  rw [hin]
  unfold decode_one
  rw [split_at_first_append 10 _ _ hno10]
  simp only
  rw [split_at_first_append 32 _ _ (fmt_ld_no_space _)]
  simp only
  rw [parse_ld_fmt_ld, split_at_first_append 32 _ _ htag32]
  simp only [hsize, if_false, horigin, parse_dec_fmt_u, word_of_as_long t ht]
  simp

theorem decode_one_resize (t c r : Nat) (rest : List Nat) (ht : t < 2 ^ 64) :
    decode_one ((Record.resize t c r).encode ++ rest) = some (Record.resize t c r, rest) := by
  have hin : (Record.resize t c r).encode ++ rest
      = (fmt_ld (as_long t) ++ 32 :: (SIZE_STRING ++ 32 :: (fmt_u c ++ 32 :: fmt_u r)))
          ++ 10 :: rest := by
    simp [Record.encode]
  have hs10 : 10 ∉ SIZE_STRING := by decide
  have hs32 : 32 ∉ SIZE_STRING := by decide
  have hno10 :
      10 ∉ fmt_ld (as_long t) ++ 32 :: (SIZE_STRING ++ 32 :: (fmt_u c ++ 32 :: fmt_u r)) := by
    simp [fmt_u_no_newline, fmt_ld_no_newline, hs10]
  rw [hin]
  unfold decode_one
  rw [split_at_first_append 10 _ _ hno10]
  simp only
  rw [split_at_first_append 32 _ _ (fmt_ld_no_space _)]
  simp only
  rw [parse_ld_fmt_ld, split_at_first_append 32 _ _ hs32]
  simp only [if_true]
  rw [split_at_first_append 32 _ _ (fmt_u_no_space c)]
  simp only [parse_dec_fmt_u, word_of_as_long t ht]

theorem decode_one_encode (r : Record) (rest : List Nat) (ht : r.timestamp < 2 ^ 64) :
    decode_one (r.encode ++ rest) = some (r, rest) := by
  cases r with
  | chunk t o p => exact decode_one_chunk t o p rest ht
  | resize t c r => exact decode_one_resize t c r rest ht

theorem encode_length_pos (r : Record) : 0 < r.encode.length := by
  cases r <;> simp [Record.encode]

theorem decode_fuel_encode_all (recs : List Record) :
    ∀ fuel, (∀ r ∈ recs, r.timestamp < 2 ^ 64) → (encode_all recs).length ≤ fuel →
      decode_fuel fuel (encode_all recs) = some recs := by
  induction recs with
  | nil => intro fuel _ _; cases fuel <;> rfl
  | cons r rs ih =>
    intro fuel hts hf
    have hpos := encode_length_pos r
    have hlen : (encode_all (r :: rs)).length = r.encode.length + (encode_all rs).length := by
      simp [encode_all]
    cases fuel with
    | zero => omega
    | succ f =>
      have hcons : ∃ b bs, r.encode ++ encode_all rs = b :: bs := by
        cases h : r.encode ++ encode_all rs with
        | nil =>
          have := congrArg List.length h
          rw [List.length_append, List.length_nil] at this
          omega
        | cons b bs => exact ⟨b, bs, rfl⟩
      obtain ⟨b, bs, hb⟩ := hcons
      show decode_fuel (f + 1) (r.encode ++ encode_all rs) = some (r :: rs)
      rw [hb]
      unfold decode_fuel
      rw [← hb, decode_one_encode r _ (hts r (by simp))]
      simp only
      rw [ih f (fun x hx => hts x (List.mem_cons_of_mem _ hx)) (by omega)]

/-- The decoder recovers any sequence of records with 64-bit timestamps from
their bytes in the log. -/
theorem decode_encode_all (recs : List Record) (hts : ∀ r ∈ recs, r.timestamp < 2 ^ 64) :
    decode (encode_all recs) = some recs :=
  decode_fuel_encode_all recs _ hts (le_refl _)

theorem call_record_timestamp (calls : List Call) :
    ∀ r ∈ calls.map Call.record, r.timestamp < 2 ^ 64 := by
  intro r hr
  obtain ⟨c, _, hc⟩ := List.mem_map.mp hr
  subst hc
  cases c with
  | string clock o p => exact micros_lt clock
  | resize clock ws => exact micros_lt clock

theorem call_output_encode (c : Call) (h : c.in_range = true) : c.output = c.record.encode := by
  cases c with
  | string clock o p =>
    have h : p.length < 2 ^ 63 := by
      unfold Call.in_range at h
      rw [decide_eq_true_eq] at h
      exact h
    obtain ⟨logged, hl, hw⟩ := record_string_log clock o p [] [] [] h
      (by simp) (by simp) (by simp)
    show written Fd.log
      ((record_string (some clock) p (p.length : Int) o.tag [] [] []).getD []) = _
    rw [hl]
    exact hw
  | resize clock ws =>
    have h : ws.ws_col < 65536 ∧ ws.ws_row < 65536 := by
      unfold Call.in_range at h
      rw [Bool.and_eq_true, decide_eq_true_eq, decide_eq_true_eq] at h
      exact h
    obtain ⟨logged, hl, hw⟩ := record_resize_log clock ws [] h.1 h.2 (by simp)
    show written Fd.log
      ((record_resize (some clock) (ws.ws_col : Int) (ws.ws_row : Int) []).getD []) = _
    rw [hl]
    exact hw

theorem log_of_calls_encode (calls : List Call) (h : ∀ c ∈ calls, c.in_range = true) :
    log_of_calls calls = encode_all (calls.map Call.record) := by
  induction calls with
  | nil => rfl
  | cons c cs ih =>
    have hc := call_output_encode c (h c (by simp))
    have hcs := ih (fun d hd => h d (List.mem_cons_of_mem _ hd))
    simp only [log_of_calls, List.map_cons, encode_all, hc, hcs]

/-- C3. For every finite sequence of calls of `record_string` and
`record_resize` with arguments within their C types (payload length within
`ssize_t`, window size within `unsigned short`; the clock reading and the
payload bytes are arbitrary), the decoder, which reads a header line up to the
first newline and for `USER` and `HOST` then takes exactly the declared number
of bytes and one newline, applied to the concatenation of what the calls
wrote, returns exactly the sequence of their records: timestamp, origin and
payload, or timestamp and size. -/
theorem decode_recovers_records (calls : List Call) (h : ∀ c ∈ calls, c.in_range = true) :
    decode (log_of_calls calls) = some (calls.map Call.record) := by
  rw [log_of_calls_encode calls h]
  exact decode_encode_all _ (call_record_timestamp calls)

/-- C3, at `sample_calls`: a payload that holds a newline, a null byte and
the text of a whole record, an empty payload, a resize, and a chunk at a
timestamp of `2 ^ 63`. -/
theorem decode_recovers_records_witness :
    decode (log_of_calls sample_calls)
      = some [Record.chunk 1500000 Origin.user
                [10, 0, 49, 32, 85, 83, 69, 82, 32, 49, 10, 120, 10],
              Record.chunk 2000000 Origin.host [],
              Record.resize 2000001 80 24,
              Record.chunk 9223372036854775808 Origin.host [255, 10]] :=
  decode_recovers_records sample_calls (by decide)

/-! ## Forwarding -/

theorem relay_bytes_read (fds : List Fd) (src dst : Fd) (tag : Option (List Nat)) (e : Env) :
    bytes_read fds (relay src dst tag e).2
      = if src ∈ fds then (sys_read e.input buf_size).2 else [] := by
  rcases relay_shape src dst tag e with ⟨hc, h⟩ | ⟨_, ⟨t, _, _, h⟩ | ⟨logged, hl, h⟩⟩
  · rw [h, hc]; simp [bytes_read]
  · rw [h]; simp [bytes_read]
  · rw [h]
    have hq : bytes_read fds logged = [] := by
      rcases hl with ⟨_, hl⟩ | ⟨t, _, hl⟩
      · subst hl; rfl
      · exact (record_string_quiet _ _ _ _ _ _ _ logged fds hl).2.1
    by_cases hs : src ∈ fds <;> simp [bytes_read, bytes_read_append, swrite_bytes_read, hq, hs]

theorem relay_written_other (src dst : Fd) (tag : Option (List Nat)) (e : Env) (g : Fd)
    (hg : g ≠ dst) (hlog : g ≠ Fd.log ∨ tag = none) :
    written g (relay src dst tag e).2 = [] := by
  rcases relay_shape src dst tag e with ⟨_, h⟩ | ⟨_, ⟨t, _, _, h⟩ | ⟨logged, hl, h⟩⟩
  · rw [h]; simp [written]
  · rw [h]; simp [written]
  · rw [h]
    have hq : written g logged = [] := by
      rcases hl with ⟨_, hl⟩ | ⟨t, ht, hl⟩
      · subst hl; rfl
      · rcases hlog with hlog | hlog
        · exact (record_string_quiet _ _ _ _ _ _ _ logged [] hl).1 g hlog
        · rw [ht] at hlog; exact absurd hlog (by simp)
    simp [written, written_append, hq, swrite_written_other dst g (Ne.symm hg)]

/-- What a data branch writes to its destination is a start of the chunk it
read, and the whole chunk when the branch leaves the loop running. -/
theorem relay_written_dst (src dst : Fd) (tag : Option (List Nat)) (e : Env)
    (hdst : dst ≠ Fd.log) :
    (∃ t, (sys_read e.input buf_size).2 = written dst (relay src dst tag e).2 ++ t)
    ∧ ((relay src dst tag e).1 = Status.running →
        written dst (relay src dst tag e).2 = (sys_read e.input buf_size).2) := by
  rcases relay_shape src dst tag e with ⟨hc, h⟩ | ⟨_, ⟨t, _, _, h⟩ | ⟨logged, hl, h⟩⟩
  · rw [h, hc]
    exact ⟨⟨[], by simp [written]⟩, fun hrun => absurd hrun (by simp)⟩
  · rw [h]
    exact ⟨⟨(sys_read e.input buf_size).2, by simp [written]⟩,
      fun hrun => absurd hrun (by simp)⟩
  · rw [h]
    have hq : written dst logged = [] := by
      rcases hl with ⟨_, hl⟩ | ⟨t, _, hl⟩
      · subst hl; rfl
      · exact (record_string_quiet _ _ _ _ _ _ _ logged [] hl).1 dst hdst
    obtain ⟨hp, h0, h01⟩ := swrite_prefix dst e.fwd (sys_read e.input buf_size).2
    have hw : written dst ([Effect.read src (sys_read e.input buf_size).2] ++ logged
        ++ (swrite dst (sys_read e.input buf_size).2 e.fwd).1)
        = written dst (swrite dst (sys_read e.input buf_size).2 e.fwd).1 := by
      simp [written, written_append, hq]
    refine ⟨by rw [hw]; exact hp, fun hrun => ?_⟩
    rw [hw]
    apply h0
    rcases h01 with h1 | h1
    · exact h1
    · rw [h1] at hrun
      exact absurd hrun (by simp)

/-- A data branch leaves the loop running exactly when it read a chunk, the
record function (if the branch records) did not stop at an `assert`, and the
forward `swrite` returned 0. -/
theorem relay_running_iff (src dst : Fd) (tag : Option (List Nat)) (e : Env) :
    (relay src dst tag e).1 = Status.running
      ↔ ((sys_read e.input buf_size).2 ≠ []
        ∧ (∀ t, tag = some t →
            record_string e.clock (sys_read e.input buf_size).2
              ((sys_read e.input buf_size).2.length : Int) t e.log1 e.log2 e.log3 ≠ none)
        ∧ (swrite dst (sys_read e.input buf_size).2 e.fwd).2 = 0) := by
  rcases relay_shape src dst tag e with ⟨hc, h⟩ | ⟨hne, ⟨t, ht, hnone, h⟩ | ⟨logged, hl, h⟩⟩
  · rw [h]
    exact ⟨fun hrun => absurd hrun (by simp), fun hr => absurd hc hr.1⟩
  · rw [h]
    exact ⟨fun hrun => absurd hrun (by simp), fun hr => absurd hnone (hr.2.1 t ht)⟩
  · rw [h]
    have hrec : ∀ t, tag = some t →
        record_string e.clock (sys_read e.input buf_size).2
          ((sys_read e.input buf_size).2.length : Int) t e.log1 e.log2 e.log3 ≠ none := by
      intro t ht
      rcases hl with ⟨hn, _⟩ | ⟨t2, ht2, hl⟩
      · rw [hn] at ht; exact absurd ht (by simp)
      · rw [ht2, Option.some.injEq] at ht
        rw [← ht, hl]
        simp
    rcases ( swrite_prefix dst e.fwd (sys_read e.input buf_size).2).2.2 with h0 | h1
    · rw [h0]
      exact ⟨fun _ => ⟨hne, hrec, rfl⟩, fun _ => by simp⟩
    · rw [h1]
      exact ⟨fun hrun => absurd hrun (by simp), fun hr => absurd hr.2.2 (by simp)⟩

/-- A data branch that sends to the child: `turn_forwards` holds of its
outcome when the source is one of the descriptors counted for the child. -/
theorem relay_to_child_forwards (src : Fd) (tag : Option (List Nat)) (e : Env)
    (srcs : List Fd) (hsrc : src ∈ srcs) (hc : src ≠ Fd.child) :
    turn_forwards srcs (relay src Fd.child tag e) := by
  have hB1 : bytes_read srcs (relay src Fd.child tag e).2 = (sys_read e.input buf_size).2 := by
    rw [relay_bytes_read]; simp [hsrc]
  have hB2 : bytes_read [Fd.child] (relay src Fd.child tag e).2 = [] := by
    rw [relay_bytes_read]; simp [hc]
  have hW : written Fd.stdin (relay src Fd.child tag e).2 = [] :=
    relay_written_other _ _ _ e Fd.stdin (by decide) (Or.inl (by decide))
  have hD := relay_written_dst src Fd.child tag e (by decide)
  refine ⟨fun hrun => ⟨?_, ?_⟩, ?_, ?_, ?_, ?_⟩
  · rw [hB1]; exact hD.2 hrun
  · rw [hW, hB2]
  · rw [hB1]; exact hD.1
  · exact ⟨[], by rw [hW, hB2]; rfl⟩
  · exact relay_written_other _ _ _ e Fd.winch (by decide) (Or.inl (by decide))
  · exact relay_written_other _ _ _ e Fd.sock (by decide) (Or.inl (by decide))

/-- A data branch that reads from the child and sends to the terminal. -/
theorem relay_to_user_forwards (tag : Option (List Nat)) (e : Env)
    (srcs : List Fd) (hc : Fd.child ∉ srcs) :
    turn_forwards srcs (relay Fd.child Fd.stdin tag e) := by
  have hB1 : bytes_read srcs (relay Fd.child Fd.stdin tag e).2 = [] := by
    rw [relay_bytes_read]; simp [hc]
  have hB2 : bytes_read [Fd.child] (relay Fd.child Fd.stdin tag e).2
      = (sys_read e.input buf_size).2 := by
    rw [relay_bytes_read]; simp
  have hW : written Fd.child (relay Fd.child Fd.stdin tag e).2 = [] :=
    relay_written_other _ _ _ e Fd.child (by decide) (Or.inl (by decide))
  have hD := relay_written_dst Fd.child Fd.stdin tag e (by decide)
  refine ⟨fun hrun => ⟨?_, ?_⟩, ?_, ?_, ?_, ?_⟩
  · rw [hW, hB1]
  · rw [hB2]; exact hD.2 hrun
  · exact ⟨[], by rw [hW, hB1]; rfl⟩
  · rw [hB2]; exact hD.1
  · exact relay_written_other _ _ _ e Fd.winch (by decide) (Or.inl (by decide))
  · exact relay_written_other _ _ _ e Fd.sock (by decide) (Or.inl (by decide))

/-- A turn that reads nothing from the data channels and writes nothing to a
descriptor other than the log forwards nothing. -/
theorem quiet_turn_forwards (srcs : List Fd) (r : Status × List Effect)
    (h1 : bytes_read srcs r.2 = []) (h2 : bytes_read [Fd.child] r.2 = [])
    (h3 : ∀ g, g ≠ Fd.log → written g r.2 = []) : turn_forwards srcs r := by
  have hc := h3 Fd.child (by decide)
  have hs := h3 Fd.stdin (by decide)
  refine ⟨fun _ => ⟨by rw [hc, h1], by rw [hs, h2]⟩, ⟨[], by rw [hc, h1]; rfl⟩,
    ⟨[], by rw [hs, h2]; rfl⟩, h3 Fd.winch (by decide), h3 Fd.sock (by decide)⟩

/-- The ways the resize branch of term-save can go. -/
theorem save_on_resize_shape (e : Env) :
    TermSave.on_resize e = (Status.aborted, [Effect.read Fd.winch []])
    ∨ (e.winsz = none
      ∧ TermSave.on_resize e
          = (Status.ended, [Effect.read Fd.winch [], Effect.get_winsize none]))
    ∨ (∃ ws, e.winsz = some ws
      ∧ ((record_resize e.clock (ws.ws_col : Int) (ws.ws_row : Int) e.log1 = none
          ∧ TermSave.on_resize e
              = (Status.aborted, [Effect.read Fd.winch [], Effect.get_winsize (some ws)]))
        ∨ (∃ logged,
            record_resize e.clock (ws.ws_col : Int) (ws.ws_row : Int) e.log1 = some logged
            ∧ TermSave.on_resize e
                = ((if e.set_ok = true then Status.running else Status.ended),
                  [Effect.read Fd.winch [], Effect.get_winsize (some ws)] ++ logged
                    ++ [Effect.set_winsize ws e.set_ok])))) := by
  unfold TermSave.on_resize
  by_cases h1 : e.winch_read = sizeof_siginfo
  · by_cases h2 : e.ssi_signo = SIGWINCH
    · rcases hw : e.winsz with _ | ws
      · right; left
        simp [h1, h2]
      · right; right
        refine ⟨ws, rfl, ?_⟩
        rcases hl : record_resize e.clock (ws.ws_col : Int) (ws.ws_row : Int) e.log1
          with _ | logged
        · left
          simp [h1, h2, hl]
        · right
          refine ⟨logged, rfl, ?_⟩
          by_cases h3 : e.set_ok = true
          · simp [h1, h2, h3, hl]
          · have h3f : e.set_ok = false := by simpa using h3
            simp [h1, h2, h3f, hl]
    · left
      simp [h1, h2]
  · left
    simp [h1]

theorem save_on_resize_io (e : Env) (fds : List Fd) :
    bytes_read fds (TermSave.on_resize e).2 = []
      ∧ ∀ g, g ≠ Fd.log → written g (TermSave.on_resize e).2 = [] := by
  rcases save_on_resize_shape e with h | ⟨_, h⟩ | ⟨ws, _, ⟨_, h⟩ | ⟨logged, hl, h⟩⟩
  · rw [h]; simp [bytes_read, written]
  · rw [h]; simp [bytes_read, written]
  · rw [h]; simp [bytes_read, written]
  · rw [h]
    have hq := record_resize_quiet _ _ _ _ logged fds hl
    refine ⟨by simp [bytes_read, bytes_read_append, hq.2.1], fun g hg => ?_⟩
    simp [written, written_append, hq.1 g hg]

theorem receive_on_resize_io (e : Env) (fds : List Fd) :
    bytes_read fds (TermReceive.on_resize e).2 = []
      ∧ ∀ g, written g (TermReceive.on_resize e).2 = [] := by
  unfold TermReceive.on_resize
  by_cases h1 : e.winch_read = sizeof_siginfo
  · by_cases h2 : e.ssi_signo = SIGWINCH
    · rcases hw : e.winsz with _ | ws
      · simp [h1, h2, bytes_read, written]
      · by_cases h3 : e.set_ok = true <;> simp [h1, h2, h3, bytes_read, written]
    · simp [h1, h2, bytes_read, written]
  · simp [h1, bytes_read, written]

/-- Every turn of term-save forwards verbatim, whatever the environment. -/
theorem save_body_forwards (e : Env) : turn_forwards [Fd.stdin] (TermSave.loop_body e) := by
  unfold TermSave.loop_body
  by_cases hp : e.poll_ret < 0
  · simp only [hp, if_true]
    exact quiet_turn_forwards _ _ rfl rfl (fun _ _ => rfl)
  · by_cases h0 : e.revents0 &&& POLLIN = 0
    · by_cases h1 : e.revents1 &&& POLLIN = 0
      · by_cases h2 : e.revents2 &&& POLLIN = 0
        · simp only [hp, h0, h1, h2, if_false, ne_eq, not_true_eq_false]
          split_ifs <;> exact quiet_turn_forwards _ _ rfl rfl (fun _ _ => rfl)
        · simp only [hp, h0, h1, h2, if_false, ne_eq, not_true_eq_false, not_false_eq_true,
            if_true]
          have hio := save_on_resize_io e
          exact quiet_turn_forwards _ _ (hio [Fd.stdin]).1 (hio [Fd.child]).1 (hio []).2
      · simp only [hp, h0, h1, if_false, ne_eq, not_true_eq_false, not_false_eq_true,
          if_true, relay_save_host]
        exact relay_to_user_forwards _ e _ (by decide)
    · simp only [hp, h0, if_false, ne_eq, not_false_eq_true, if_true, relay_save_user]
      exact relay_to_child_forwards _ _ e _ (by decide) (by decide)

/-- Every turn of term-receive forwards verbatim, whatever the environment,
and writes nothing to a log. -/
theorem receive_body_forwards (e : Env) :
    turn_forwards [Fd.stdin, Fd.sock] (TermReceive.loop_body e)
    ∧ written Fd.log (TermReceive.loop_body e).2 = [] := by
  unfold TermReceive.loop_body
  by_cases hp : e.poll_ret < 0
  · simp only [hp, if_true]
    exact ⟨quiet_turn_forwards _ _ rfl rfl (fun _ _ => rfl), rfl⟩
  · by_cases h0 : e.revents0 &&& POLLIN = 0
    · by_cases h1 : e.revents1 &&& POLLIN = 0
      · by_cases h2 : e.revents2 &&& POLLIN = 0
        · by_cases h3 : e.revents3 &&& POLLIN = 0
          · simp only [hp, h0, h1, h2, h3, if_false, ne_eq, not_true_eq_false]
            split_ifs <;> exact ⟨quiet_turn_forwards _ _ rfl rfl (fun _ _ => rfl), rfl⟩
          · simp only [hp, h0, h1, h2, h3, if_false, ne_eq, not_true_eq_false,
              not_false_eq_true, if_true, relay_receive_socket]
            exact ⟨relay_to_child_forwards _ _ e _ (by decide) (by decide),
              relay_written_other _ _ _ e Fd.log (by decide) (Or.inr rfl)⟩
        · simp only [hp, h0, h1, h2, if_false, ne_eq, not_true_eq_false, not_false_eq_true,
            if_true]
          have hio := receive_on_resize_io e
          exact ⟨quiet_turn_forwards _ _ (hio [Fd.stdin, Fd.sock]).1 (hio [Fd.child]).1
            (fun g _ => (hio []).2 g), (hio []).2 Fd.log⟩
      · simp only [hp, h0, h1, if_false, ne_eq, not_true_eq_false, not_false_eq_true,
          if_true, relay_receive_host]
        exact ⟨relay_to_user_forwards _ e _ (by decide),
          relay_written_other _ _ _ e Fd.log (by decide) (Or.inr rfl)⟩
    · simp only [hp, h0, if_false, ne_eq, not_false_eq_true, if_true, relay_receive_user]
      exact ⟨relay_to_child_forwards _ _ e _ (by decide) (by decide),
        relay_written_other _ _ _ e Fd.log (by decide) (Or.inr rfl)⟩

/-- A turn of term-receive reads from one descriptor only: if it read from
`fd`, it read nothing from descriptors other than `fd`. -/
theorem receive_one_source (e : Env) (fd : Fd) (fds : List Fd)
    (h : fd ∈ serviced (TermReceive.loop_body e).2) (hfd : fd ∉ fds) :
    bytes_read fds (TermReceive.loop_body e).2 = [] := by
  have hrelay : ∀ src dst, fd ∈ serviced (relay src dst none e).2 →
      bytes_read fds (relay src dst none e).2 = [] := by
    intro src dst hm
    rw [(relay_serviced _ _ _ e).1, List.mem_singleton] at hm
    rw [relay_bytes_read, ← hm]
    simp [hfd]
  revert h
  unfold TermReceive.loop_body
  by_cases hp : e.poll_ret < 0
  · simp [hp, serviced]
  · by_cases h0 : e.revents0 &&& POLLIN = 0
    · by_cases h1 : e.revents1 &&& POLLIN = 0
      · by_cases h2 : e.revents2 &&& POLLIN = 0
        · by_cases h3 : e.revents3 &&& POLLIN = 0
          · simp only [hp, h0, h1, h2, h3, if_false, ne_eq, not_true_eq_false]
            split_ifs <;> simp [serviced]
          · simp only [hp, h0, h1, h2, h3, if_false, ne_eq, not_true_eq_false,
              not_false_eq_true, if_true, relay_receive_socket]
            exact hrelay _ _
        · simp only [hp, h0, h1, h2, if_false, ne_eq, not_true_eq_false, not_false_eq_true,
            if_true]
          intro _
          exact (receive_on_resize_io e fds).1
      · simp only [hp, h0, h1, if_false, ne_eq, not_true_eq_false, not_false_eq_true,
          if_true, relay_receive_host]
        exact hrelay _ _
    · simp only [hp, h0, if_false, ne_eq, not_false_eq_true, if_true, relay_receive_user]
      exact hrelay _ _

/-- A turn of term-save reads from one descriptor only. -/
theorem save_one_source (e : Env) (fd : Fd) (fds : List Fd)
    (h : fd ∈ serviced (TermSave.loop_body e).2) (hfd : fd ∉ fds) :
    bytes_read fds (TermSave.loop_body e).2 = [] := by
  have hrelay : ∀ src dst tag, fd ∈ serviced (relay src dst tag e).2 →
      bytes_read fds (relay src dst tag e).2 = [] := by
    intro src dst tag hm
    rw [(relay_serviced _ _ _ e).1, List.mem_singleton] at hm
    rw [relay_bytes_read, ← hm]
    simp [hfd]
  revert h
  unfold TermSave.loop_body
  by_cases hp : e.poll_ret < 0
  · simp [hp, serviced]
  · by_cases h0 : e.revents0 &&& POLLIN = 0
    · by_cases h1 : e.revents1 &&& POLLIN = 0
      · by_cases h2 : e.revents2 &&& POLLIN = 0
        · simp only [hp, h0, h1, h2, if_false, ne_eq, not_true_eq_false]
          split_ifs <;> simp [serviced]
        · simp only [hp, h0, h1, h2, if_false, ne_eq, not_true_eq_false, not_false_eq_true,
            if_true]
          intro _
          exact (save_on_resize_io e fds).1
      · simp only [hp, h0, h1, if_false, ne_eq, not_true_eq_false, not_false_eq_true,
          if_true, relay_save_host]
        exact hrelay _ _ _
    · simp only [hp, h0, if_false, ne_eq, not_false_eq_true, if_true, relay_save_user]
      exact hrelay _ _ _

/-- A turn of term-receive that reads from the socket writes nothing to the
terminal, and a turn that reads from the child writes nothing to the child. -/
theorem receive_peer_only (e : Env) :
    (Fd.sock ∈ serviced (TermReceive.loop_body e).2 →
      written Fd.stdin (TermReceive.loop_body e).2 = [])
    ∧ (Fd.child ∈ serviced (TermReceive.loop_body e).2 →
      written Fd.child (TermReceive.loop_body e).2 = []) := by
  have hf := (receive_body_forwards e).1
  constructor
  · intro h
    obtain ⟨t, ht⟩ := hf.2.2.1
    rw [receive_one_source e Fd.sock [Fd.child] h (by decide)] at ht
    exact (List.append_eq_nil.mp ht.symm).1
  · intro h
    obtain ⟨t, ht⟩ := hf.2.1
    rw [receive_one_source e Fd.child [Fd.stdin, Fd.sock] h (by decide)] at ht
    exact (List.append_eq_nil.mp ht.symm).1

/-- A turn of term-save that reads from the child writes nothing to the child. -/
theorem save_peer_only (e : Env) (h : Fd.child ∈ serviced (TermSave.loop_body e).2) :
    written Fd.child (TermSave.loop_body e).2 = [] := by
  obtain ⟨t, ht⟩ := (save_body_forwards e).2.1
  rw [save_one_source e Fd.child [Fd.stdin] h (by decide)] at ht
  exact (List.append_eq_nil.mp ht.symm).1

theorem save_start_quiet (ie : InitEnv) (fds : List Fd) :
    bytes_read fds (TermSave.session_start ie).2 = []
      ∧ ∀ g, g ≠ Fd.log → written g (TermSave.session_start ie).2 = [] := by
  unfold TermSave.session_start
  by_cases h1 : ie.sigmask_ok = true
  · by_cases h2 : ie.winch_fd < 0
    · simp [h1, h2, bytes_read, written]
    · rcases hw : ie.winsz with _ | ws
      · simp [h1, h2, bytes_read, written]
      · by_cases h3 : ie.set_ok = true
        · rcases hl : record_resize ie.clock (ws.ws_col : Int) (ws.ws_row : Int) ie.log1
            with _ | logged
          · simp [h1, h2, h3, hl, bytes_read, written]
          · have hq := record_resize_quiet _ _ _ _ logged fds hl
            simp only [h1, h2, h3, hl, not_true_eq_false, if_false]
            refine ⟨by simp [bytes_read, hq.2.1], fun g hg => ?_⟩
            simp [written, hq.1 g hg]
        · simp [h1, h2, h3, bytes_read, written]
  · simp [h1, bytes_read, written]

theorem receive_start_quiet (ie : InitEnv) (fds : List Fd) :
    bytes_read fds (TermReceive.session_start ie).2 = []
      ∧ ∀ g, written g (TermReceive.session_start ie).2 = [] := by
  unfold TermReceive.session_start
  by_cases h1 : ie.sigmask_ok = true
  · by_cases h2 : ie.winch_fd < 0
    · simp [h1, h2, bytes_read, written]
    · rcases hw : ie.winsz with _ | ws
      · simp [h1, h2, bytes_read, written]
      · by_cases h3 : ie.set_ok = true <;> simp [h1, h2, h3, bytes_read, written]
  · simp [h1, bytes_read, written]

/-- A loop of term-save that is no longer running does nothing. -/
theorem save_loop_stopped (st : Status) (tr : List Effect) (es : List Env)
    (h : st ≠ Status.running) : TermSave.loop (st, tr) es = (st, tr) := by
  cases st with
  | running => exact absurd rfl h
  | ended => exact save_loop_ended tr es
  | aborted => exact save_loop_aborted tr es

/-- A loop of term-receive that is no longer running does nothing. -/
theorem receive_loop_stopped (st : Status) (tr : List Effect) (es : List Env)
    (h : st ≠ Status.running) : TermReceive.loop (st, tr) es = (st, tr) := by
  cases st with
  | running => exact absurd rfl h
  | ended => exact receive_loop_ended tr es
  | aborted => exact receive_loop_aborted tr es

/-- What a run of the loop of term-save adds to a descriptor to which every
turn that leaves the loop running writes exactly what it read from `srcs`. -/
theorem save_loop_written (dst : Fd) (srcs : List Fd)
    (H : ∀ e, (TermSave.loop_body e).1 = Status.running →
      written dst (TermSave.loop_body e).2 = bytes_read srcs (TermSave.loop_body e).2)
    (es : List Env) :
    ∀ tr, written dst (TermSave.loop (Status.running, tr) es).2
      = written dst tr ++ (forwarded TermSave.loop_body srcs es
          ++ unfinished TermSave.loop_body dst es) := by
  induction es with
  | nil => intro tr; rw [save_loop_nil]; simp [forwarded, unfinished]
  | cons e es ih =>
    intro tr
    rw [save_loop_step]
    by_cases hr : (TermSave.loop_body e).1 = Status.running
    · rw [hr, ih, written_append, H e hr]
      simp [forwarded, unfinished, hr]
    · rw [save_loop_stopped _ _ _ hr, written_append]
      simp [forwarded, unfinished, hr]

/-- The same for the loop of term-receive. -/
theorem receive_loop_written (dst : Fd) (srcs : List Fd)
    (H : ∀ e, (TermReceive.loop_body e).1 = Status.running →
      written dst (TermReceive.loop_body e).2 = bytes_read srcs (TermReceive.loop_body e).2)
    (es : List Env) :
    ∀ tr, written dst (TermReceive.loop (Status.running, tr) es).2
      = written dst tr ++ (forwarded TermReceive.loop_body srcs es
          ++ unfinished TermReceive.loop_body dst es) := by
  induction es with
  | nil => intro tr; rw [receive_loop_nil]; simp [forwarded, unfinished]
  | cons e es ih =>
    intro tr
    rw [receive_loop_step]
    by_cases hr : (TermReceive.loop_body e).1 = Status.running
    · rw [hr, ih, written_append, H e hr]
      simp [forwarded, unfinished, hr]
    · rw [receive_loop_stopped _ _ _ hr, written_append]
      simp [forwarded, unfinished, hr]

/-- A descriptor no turn of term-save writes to gets nothing from the loop. -/
theorem save_loop_untouched (g : Fd) (H : ∀ e, written g (TermSave.loop_body e).2 = [])
    (es : List Env) :
    ∀ st tr, written g (TermSave.loop (st, tr) es).2 = written g tr := by
  induction es with
  | nil => intro st tr; rw [save_loop_nil]
  | cons e es ih =>
    intro st tr
    cases st with
    | ended => rw [save_loop_ended]
    | aborted => rw [save_loop_aborted]
    | running => rw [save_loop_step, ih, written_append, H e, List.append_nil]

/-- A descriptor no turn of term-receive writes to gets nothing from the loop. -/
theorem receive_loop_untouched (g : Fd) (H : ∀ e, written g (TermReceive.loop_body e).2 = [])
    (es : List Env) :
    ∀ st tr, written g (TermReceive.loop (st, tr) es).2 = written g tr := by
  induction es with
  | nil => intro st tr; rw [receive_loop_nil]
  | cons e es ih =>
    intro st tr
    cases st with
    | ended => rw [receive_loop_ended]
    | aborted => rw [receive_loop_aborted]
    | running => rw [receive_loop_step, ih, written_append, H e, List.append_nil]

/-- What a whole run of term-save writes to a descriptor `dst` other than the
log, to which every turn that leaves the loop running writes exactly what it
read from `srcs`. -/
theorem save_session_written (dst : Fd) (srcs : List Fd) (hdst : dst ≠ Fd.log)
    (H : ∀ e, (TermSave.loop_body e).1 = Status.running →
      written dst (TermSave.loop_body e).2 = bytes_read srcs (TermSave.loop_body e).2)
    (ie : InitEnv) (es : List Env) :
    written dst (TermSave.save_session ie es).2
      = (if (TermSave.session_start ie).1 = Status.running then
          forwarded TermSave.loop_body srcs es ++ unfinished TermSave.loop_body dst es
        else []) := by
  have hq := (save_start_quiet ie []).2 dst hdst
  unfold TermSave.save_session
  by_cases hr : (TermSave.session_start ie).1 = Status.running
  · have hs : TermSave.session_start ie = (Status.running, (TermSave.session_start ie).2) :=
      Prod.ext hr rfl
    rw [hs, save_loop_written dst srcs H es, ← hs, hq, if_pos hr, List.nil_append]
  · have hs : TermSave.session_start ie
        = ((TermSave.session_start ie).1, (TermSave.session_start ie).2) := rfl
    rw [hs, save_loop_stopped _ _ _ hr, ← hs, hq, if_neg hr]

/-- The same for a whole run of term-receive. -/
theorem receive_session_written (dst : Fd) (srcs : List Fd)
    (H : ∀ e, (TermReceive.loop_body e).1 = Status.running →
      written dst (TermReceive.loop_body e).2 = bytes_read srcs (TermReceive.loop_body e).2)
    (ie : InitEnv) (es : List Env) :
    written dst (TermReceive.save_session ie es).2
      = (if (TermReceive.session_start ie).1 = Status.running then
          forwarded TermReceive.loop_body srcs es ++ unfinished TermReceive.loop_body dst es
        else []) := by
  have hq := (receive_start_quiet ie []).2 dst
  unfold TermReceive.save_session
  by_cases hr : (TermReceive.session_start ie).1 = Status.running
  · have hs : TermReceive.session_start ie
        = (Status.running, (TermReceive.session_start ie).2) := Prod.ext hr rfl
    rw [hs, receive_loop_written dst srcs H es, ← hs, hq, if_pos hr, List.nil_append]
  · have hs : TermReceive.session_start ie
        = ((TermReceive.session_start ie).1, (TermReceive.session_start ie).2) := rfl
    rw [hs, receive_loop_stopped _ _ _ hr, ← hs, hq, if_neg hr]

/-- C5, as stated, fails at three places, each by the design of the loops.
In term-save the byte read from the child in the turn `host_byte` is written
to the terminal and also, within its `HOST` record, to the log: it is not
written "to nothing else". In the run of term-receive with the turns
`user_types` and `user_chokes` the forward write of the second turn gets one
byte through and then fails: the chunks of the iterations whose forward write
succeeded are `ls` and a newline, and the child received these three bytes and
the byte `l` after them. In the turn `host_refused` the byte read from the
child is not written to the terminal, because the forward write fails. -/
theorem forwarding_as_stated_counterexample :
    (bytes_read [Fd.child] (TermSave.loop_body host_byte).2 = [97]
      ∧ written Fd.stdin (TermSave.loop_body host_byte).2 = [97]
      ∧ written Fd.log (TermSave.loop_body host_byte).2
          = [49, 53, 48, 48, 48, 48, 48, 32, 72, 79, 83, 84, 32, 49, 10, 97, 10]
      ∧ ¬ (∀ fd, fd ≠ Fd.stdin → written fd (TermSave.loop_body host_byte).2 = []))
    ∧ ((TermReceive.loop_body user_types).1 = Status.running
      ∧ (swrite Fd.child sample_ls user_types.fwd).2 = 0
      ∧ (TermReceive.loop_body user_chokes).1 = Status.ended
      ∧ (swrite Fd.child sample_ls user_chokes.fwd).2 = -1
      ∧ forwarded TermReceive.loop_body [Fd.stdin, Fd.sock] [user_types, user_chokes]
          = [108, 115, 10]
      ∧ written Fd.child (TermReceive.save_session sample_start [user_types, user_chokes]).2
          = [108, 115, 10, 108]
      ∧ written Fd.child (TermReceive.save_session sample_start [user_types, user_chokes]).2
          ≠ forwarded TermReceive.loop_body [Fd.stdin, Fd.sock] [user_types, user_chokes])
    ∧ (bytes_read [Fd.child] (TermReceive.loop_body host_refused).2 = [97]
      ∧ written Fd.stdin (TermReceive.loop_body host_refused).2 = []
      ∧ bytes_read [Fd.child] (TermSave.loop_body host_refused).2 = [97]
      ∧ written Fd.stdin (TermSave.loop_body host_refused).2 = []) := by
  refine ⟨⟨by decide, by decide, by decide, fun h => ?_⟩, by decide, by decide⟩
  have h2 := h Fd.log (by decide)
  revert h2
  decide

/-- C5, amended. Forwarding is verbatim and goes to the designated peer
only, in both programs, for every run and every turn, whatever the
environment does.

The whole run. The bytes written to the child are exactly the concatenation,
in service order, of the chunks read from the terminal (and, in term-receive,
from the socket) in the iterations whose forward write succeeds (`forwarded`),
followed only by what the forward write of the iteration that ended the run
got through before it failed (`unfinished`: by the per-turn part below it is a
start of the chunk of that iteration, and it is empty when the write fails at
once, when the run ends otherwise and when it has not ended). In the same way
the bytes written to the terminal descriptor are the chunks read from the
child, so no byte of the socket is among them. Nothing is written to the
signalfd or to the socket, and in term-receive nothing to a log (in term-save
the log gets the records).

One turn `e`. A turn that leaves the loop running wrote to the child exactly
what it read from the terminal (and the socket) and to the terminal exactly
what it read from the child; any other turn wrote a start of it. A turn that
reads from the socket writes nothing to the terminal, and a turn that reads
from the child writes nothing to the child.

Whose forward write succeeds. A data branch leaves the loop running exactly
when it read a non-empty chunk and its forward `swrite` returned 0 (and, in
term-save, the record function did not stop at an `assert` before it). -/
theorem forwarding_verbatim (ie : InitEnv) (es : List Env) (e : Env) :
    (written Fd.child (TermReceive.save_session ie es).2
        = (if (TermReceive.session_start ie).1 = Status.running then
            forwarded TermReceive.loop_body [Fd.stdin, Fd.sock] es
              ++ unfinished TermReceive.loop_body Fd.child es
          else [])
      ∧ written Fd.stdin (TermReceive.save_session ie es).2
        = (if (TermReceive.session_start ie).1 = Status.running then
            forwarded TermReceive.loop_body [Fd.child] es
              ++ unfinished TermReceive.loop_body Fd.stdin es
          else [])
      ∧ written Fd.winch (TermReceive.save_session ie es).2 = []
      ∧ written Fd.sock (TermReceive.save_session ie es).2 = []
      ∧ written Fd.log (TermReceive.save_session ie es).2 = [])
    ∧ (written Fd.child (TermSave.save_session ie es).2
        = (if (TermSave.session_start ie).1 = Status.running then
            forwarded TermSave.loop_body [Fd.stdin] es
              ++ unfinished TermSave.loop_body Fd.child es
          else [])
      ∧ written Fd.stdin (TermSave.save_session ie es).2
        = (if (TermSave.session_start ie).1 = Status.running then
            forwarded TermSave.loop_body [Fd.child] es
              ++ unfinished TermSave.loop_body Fd.stdin es
          else [])
      ∧ written Fd.winch (TermSave.save_session ie es).2 = []
      ∧ written Fd.sock (TermSave.save_session ie es).2 = [])
    ∧ (((TermReceive.loop_body e).1 = Status.running →
          written Fd.child (TermReceive.loop_body e).2
            = bytes_read [Fd.stdin, Fd.sock] (TermReceive.loop_body e).2
          ∧ written Fd.stdin (TermReceive.loop_body e).2
            = bytes_read [Fd.child] (TermReceive.loop_body e).2)
      ∧ (∃ t, bytes_read [Fd.stdin, Fd.sock] (TermReceive.loop_body e).2
          = written Fd.child (TermReceive.loop_body e).2 ++ t)
      ∧ (∃ t, bytes_read [Fd.child] (TermReceive.loop_body e).2
          = written Fd.stdin (TermReceive.loop_body e).2 ++ t)
      ∧ written Fd.winch (TermReceive.loop_body e).2 = []
      ∧ written Fd.sock (TermReceive.loop_body e).2 = []
      ∧ written Fd.log (TermReceive.loop_body e).2 = []
      ∧ (Fd.sock ∈ serviced (TermReceive.loop_body e).2 →
          written Fd.stdin (TermReceive.loop_body e).2 = [])
      ∧ (Fd.child ∈ serviced (TermReceive.loop_body e).2 →
          written Fd.child (TermReceive.loop_body e).2 = []))
    ∧ (((TermSave.loop_body e).1 = Status.running →
          written Fd.child (TermSave.loop_body e).2
            = bytes_read [Fd.stdin] (TermSave.loop_body e).2
          ∧ written Fd.stdin (TermSave.loop_body e).2
            = bytes_read [Fd.child] (TermSave.loop_body e).2)
      ∧ (∃ t, bytes_read [Fd.stdin] (TermSave.loop_body e).2
          = written Fd.child (TermSave.loop_body e).2 ++ t)
      ∧ (∃ t, bytes_read [Fd.child] (TermSave.loop_body e).2
          = written Fd.stdin (TermSave.loop_body e).2 ++ t)
      ∧ written Fd.winch (TermSave.loop_body e).2 = []
      ∧ written Fd.sock (TermSave.loop_body e).2 = []
      ∧ (Fd.child ∈ serviced (TermSave.loop_body e).2 →
          written Fd.child (TermSave.loop_body e).2 = []))
    ∧ (((TermReceive.on_user e).1 = Status.running
          ↔ ((sys_read e.input buf_size).2 ≠ []
            ∧ (swrite Fd.child (sys_read e.input buf_size).2 e.fwd).2 = 0))
      ∧ ((TermReceive.on_socket e).1 = Status.running
          ↔ ((sys_read e.input buf_size).2 ≠ []
            ∧ (swrite Fd.child (sys_read e.input buf_size).2 e.fwd).2 = 0))
      ∧ ((TermReceive.on_host e).1 = Status.running
          ↔ ((sys_read e.input buf_size).2 ≠ []
            ∧ (swrite Fd.stdin (sys_read e.input buf_size).2 e.fwd).2 = 0))
      ∧ ((TermSave.on_user e).1 = Status.running
          ↔ ((sys_read e.input buf_size).2 ≠ []
            ∧ record_string e.clock (sys_read e.input buf_size).2
                ((sys_read e.input buf_size).2.length : Int) USER_STRING
                e.log1 e.log2 e.log3 ≠ none
            ∧ (swrite Fd.child (sys_read e.input buf_size).2 e.fwd).2 = 0))
      ∧ ((TermSave.on_host e).1 = Status.running
          ↔ ((sys_read e.input buf_size).2 ≠ []
            ∧ record_string e.clock (sys_read e.input buf_size).2
                ((sys_read e.input buf_size).2.length : Int) HOST_STRING
                e.log1 e.log2 e.log3 ≠ none
            ∧ (swrite Fd.stdin (sys_read e.input buf_size).2 e.fwd).2 = 0))) := by
  have hrecv := fun x => (receive_body_forwards x).1
  have hsave := save_body_forwards
  refine ⟨⟨?_, ?_, ?_, ?_, ?_⟩, ⟨?_, ?_, ?_, ?_⟩, ?_, ?_, ?_⟩
  · exact receive_session_written Fd.child _ (fun x hx => ((hrecv x).1 hx).1) ie es
  · exact receive_session_written Fd.stdin _ (fun x hx => ((hrecv x).1 hx).2) ie es
  · unfold TermReceive.save_session
    rw [receive_loop_untouched Fd.winch (fun x => (hrecv x).2.2.2.1) es]
    exact (receive_start_quiet ie []).2 _
  · unfold TermReceive.save_session
    rw [receive_loop_untouched Fd.sock (fun x => (hrecv x).2.2.2.2) es]
    exact (receive_start_quiet ie []).2 _
  · unfold TermReceive.save_session
    rw [receive_loop_untouched Fd.log (fun x => (receive_body_forwards x).2) es]
    exact (receive_start_quiet ie []).2 _
  · exact save_session_written Fd.child _ (by decide) (fun x hx => ((hsave x).1 hx).1) ie es
  · exact save_session_written Fd.stdin _ (by decide) (fun x hx => ((hsave x).1 hx).2) ie es
  · unfold TermSave.save_session
    rw [save_loop_untouched Fd.winch (fun x => (hsave x).2.2.2.1) es]
    exact (save_start_quiet ie []).2 _ (by decide)
  · unfold TermSave.save_session
    rw [save_loop_untouched Fd.sock (fun x => (hsave x).2.2.2.2) es]
    exact (save_start_quiet ie []).2 _ (by decide)
  · exact ⟨(hrecv e).1, (hrecv e).2.1, (hrecv e).2.2.1, (hrecv e).2.2.2.1, (hrecv e).2.2.2.2,
      (receive_body_forwards e).2, (receive_peer_only e).1, (receive_peer_only e).2⟩
  · exact ⟨(hsave e).1, (hsave e).2.1, (hsave e).2.2.1, (hsave e).2.2.2.1, (hsave e).2.2.2.2,
      save_peer_only e⟩
  · refine ⟨?_, ?_, ?_, ?_, ?_⟩
    · rw [relay_receive_user, relay_running_iff]
      simp
    · rw [relay_receive_socket, relay_running_iff]
      simp
    · rw [relay_receive_host, relay_running_iff]
      simp
    · rw [relay_save_user, relay_running_iff]
      simp
    · rw [relay_save_host, relay_running_iff]
      simp

/-! ## What term-save leaves in the log -/

theorem log_of_calls_append (a b : List Call) :
    log_of_calls (a ++ b) = log_of_calls a ++ log_of_calls b := by
  induction a with
  | nil => rfl
  | cons c cs ih => simp [log_of_calls, ih]

theorem payloads_append (o : Origin) (a b : List Record) :
    payloads o (a ++ b) = payloads o a ++ payloads o b := by
  induction a with
  | nil => rfl
  | cons r rs ih =>
    cases r with
    | chunk t o2 p =>
      by_cases h : o2 = o <;> simp [payloads, h, ih]
    | resize t c r => simpa [payloads] using ih

theorem recorded_append (a b : List Effect) (ca cb : List Call)
    (ha : Recorded a ca) (hb : Recorded b cb) : Recorded (a ++ b) (ca ++ cb) := by
  obtain ⟨a1, a2, a3, a4, a5⟩ := ha
  obtain ⟨b1, b2, b3, b4, b5⟩ := hb
  refine ⟨?_, ?_, ?_, ?_, ?_⟩
  · intro c hc
    rcases List.mem_append.mp hc with h | h
    · exact a1 c h
    · exact b1 c h
  · rw [written_append, log_of_calls_append, a2, b2]
  · rw [List.map_append, List.map_append, observed_append, a3, b3]
  · rw [List.map_append, payloads_append, bytes_read_append, a4, b4]
  · rw [List.map_append, payloads_append, bytes_read_append, a5, b5]

theorem recorded_nil (tr : List Effect) (h1 : written Fd.log tr = []) (h2 : observed tr = [])
    (h3 : bytes_read [Fd.stdin] tr = []) (h4 : bytes_read [Fd.child] tr = []) :
    Recorded tr [] := by
  refine ⟨by simp, ?_, ?_, ?_, ?_⟩
  · rw [h1]; rfl
  · rw [h2]; rfl
  · rw [h3]; rfl
  · rw [h4]; rfl

theorem records_well_unpack (e : Env) (h : e.records_well = true) :
    (∃ tp, e.clock = some tp)
    ∧ (∀ ws, e.winsz = some ws → ws.ws_col < 65536 ∧ ws.ws_row < 65536)
    ∧ none ∉ e.log1 ∧ none ∉ e.log2 ∧ none ∉ e.log3 := by
  unfold Env.records_well at h
  rw [Bool.and_eq_true, Bool.and_eq_true, Bool.and_eq_true, Bool.and_eq_true,
    decide_eq_true_eq, decide_eq_true_eq, decide_eq_true_eq] at h
  obtain ⟨⟨⟨⟨hc, hw⟩, h1⟩, h2⟩, h3⟩ := h
  refine ⟨?_, ?_, h1, h2, h3⟩
  · cases hcl : e.clock with
    | none => rw [hcl] at hc; exact absurd hc (by simp)
    | some tp => exact ⟨tp, rfl⟩
  · intro ws hws
    rw [hws] at hw
    simpa using hw

theorem init_records_well_unpack (ie : InitEnv) (h : ie.records_well = true) :
    (∃ tp, ie.clock = some tp)
    ∧ (∀ ws, ie.winsz = some ws → ws.ws_col < 65536 ∧ ws.ws_row < 65536)
    ∧ none ∉ ie.log1 := by
  unfold InitEnv.records_well at h
  rw [Bool.and_eq_true, Bool.and_eq_true, decide_eq_true_eq] at h
  obtain ⟨⟨hc, hw⟩, h1⟩ := h
  refine ⟨?_, ?_, h1⟩
  · cases hcl : ie.clock with
    | none => rw [hcl] at hc; exact absurd hc (by simp)
    | some tp => exact ⟨tp, rfl⟩
  · intro ws hws
    rw [hws] at hw
    simpa using hw

theorem call_string_recorded (tp : Timespec) (o : Origin) (c : List Nat)
    (tr : List Effect) (hlen : c.length < 2 ^ 63)
    (hw : written Fd.log tr = (Record.chunk (micros tp) o c).encode)
    (hobs : observed tr = [Obs.chunk o c])
    (h3 : bytes_read [Fd.stdin] tr = if o = Origin.user then c else [])
    (h4 : bytes_read [Fd.child] tr = if o = Origin.host then c else []) :
    Recorded tr [Call.string tp o c] := by
  have hr : (Call.string tp o c).in_range = true := by
    unfold Call.in_range
    rw [decide_eq_true_eq]
    exact hlen
  refine ⟨?_, ?_, ?_, ?_, ?_⟩
  · intro x hx
    rw [List.mem_singleton] at hx
    rw [hx]; exact hr
  · rw [hw]
    show _ = (Call.string tp o c).output ++ []
    rw [call_output_encode _ hr, List.append_nil]
    rfl
  · rw [hobs]; rfl
  · rw [h3]
    cases o <;> simp [Call.record, payloads]
  · rw [h4]
    cases o <;> simp [Call.record, payloads]

theorem relay_recorded (o : Origin) (dst : Fd) (hdst : dst ≠ Fd.log) (e : Env)
    (h : e.records_well = true) :
    ∃ calls, Recorded (relay o.fd dst (some o.tag) e).2 calls := by
  obtain ⟨⟨tp, hclock⟩, _, h1, h2, h3⟩ := records_well_unpack e h
  have hlen : (sys_read e.input buf_size).2.length < 2 ^ 63 := by
    have := (sys_read_length e.input buf_size).1
    have hb : buf_size = 16384 := rfl
    omega
  obtain ⟨logged0, hl0, hw0⟩ := record_string_log tp o (sys_read e.input buf_size).2
    e.log1 e.log2 e.log3 hlen h1 h2 h3
  rcases relay_shape o.fd dst (some o.tag) e with
    ⟨hc, hr⟩ | ⟨hne, ⟨t, htag, hnone, _⟩ | ⟨logged, hl, hr⟩⟩
  · refine ⟨[], ?_⟩
    rw [hr]
    apply recorded_nil
    · rfl
    · cases o <;> rfl
    · simp [bytes_read]
    · simp [bytes_read]
  · simp only [Option.some.injEq] at htag
    rw [← htag, hclock, hl0] at hnone
    exact absurd hnone (by simp)
  · rcases hl with ⟨htag, _⟩ | ⟨t, htag, hl⟩
    · exact absurd htag (by simp)
    · simp only [Option.some.injEq] at htag
      rw [← htag, hclock, hl0] at hl
      simp only [Option.some.injEq] at hl
      subst hl
      have hq := record_string_quiet _ _ _ _ _ _ _ logged0 [Fd.stdin] (hclock ▸ hl0)
      have hq2 := record_string_quiet _ _ _ _ _ _ _ logged0 [Fd.child] (hclock ▸ hl0)
      refine ⟨[Call.string tp o (sys_read e.input buf_size).2], ?_⟩
      rw [hr]
      apply call_string_recorded tp o _ _ hlen
      · simp [written, written_append, hw0, swrite_written_other dst Fd.log hdst]
      · cases o <;>
          simp [observed, observed_append, hq.2.2.2, swrite_observed, Origin.fd, hne]
      · cases o <;>
          simp [bytes_read, bytes_read_append, hq.2.1, swrite_bytes_read, Origin.fd]
      · cases o <;>
          simp [bytes_read, bytes_read_append, hq2.2.1, swrite_bytes_read, Origin.fd]

theorem call_resize_recorded (tp : Timespec) (ws : Winsize) (tr : List Effect)
    (hc : ws.ws_col < 65536) (hr : ws.ws_row < 65536)
    (hw : written Fd.log tr = (Record.resize (micros tp) ws.ws_col ws.ws_row).encode)
    (hobs : observed tr = [Obs.resize ws.ws_col ws.ws_row])
    (h3 : bytes_read [Fd.stdin] tr = []) (h4 : bytes_read [Fd.child] tr = []) :
    Recorded tr [Call.resize tp ws] := by
  have hin : (Call.resize tp ws).in_range = true := by
    unfold Call.in_range
    rw [Bool.and_eq_true, decide_eq_true_eq, decide_eq_true_eq]
    exact ⟨hc, hr⟩
  refine ⟨?_, ?_, ?_, ?_, ?_⟩
  · intro x hx
    rw [List.mem_singleton] at hx
    rw [hx]; exact hin
  · rw [hw]
    show _ = (Call.resize tp ws).output ++ []
    rw [call_output_encode _ hin, List.append_nil]
    rfl
  · rw [hobs]; rfl
  · rw [h3]; rfl
  · rw [h4]; rfl

theorem save_on_resize_recorded (e : Env) (h : e.records_well = true) :
    ∃ calls, Recorded (TermSave.on_resize e).2 calls := by
  obtain ⟨⟨tp, hclock⟩, hws, h1, _, _⟩ := records_well_unpack e h
  rcases save_on_resize_shape e with hr | ⟨_, hr⟩ | ⟨ws, hw, ⟨hnone, _⟩ | ⟨logged, hl, hr⟩⟩
  · refine ⟨[], ?_⟩
    rw [hr]
    exact recorded_nil _ rfl rfl rfl rfl
  · refine ⟨[], ?_⟩
    rw [hr]
    exact recorded_nil _ rfl rfl rfl rfl
  · obtain ⟨logged0, hl0, _⟩ := record_resize_log tp ws e.log1 (hws ws hw).1 (hws ws hw).2 h1
    rw [hclock, hl0] at hnone
    exact absurd hnone (by simp)
  · obtain ⟨logged0, hl0, hw0⟩ :=
      record_resize_log tp ws e.log1 (hws ws hw).1 (hws ws hw).2 h1
    have hq := record_resize_quiet _ _ _ _ logged [Fd.stdin] hl
    have hq2 := record_resize_quiet _ _ _ _ logged [Fd.child] hl
    rw [hclock, hl0] at hl
    simp only [Option.some.injEq] at hl
    subst hl
    refine ⟨[Call.resize tp ws], ?_⟩
    rw [hr]
    apply call_resize_recorded tp ws _ (hws ws hw).1 (hws ws hw).2
    · simp [written, written_append, hw0]
    · simp [observed, observed_append, hq.2.2.2]
    · simp [bytes_read, bytes_read_append, hq.2.1]
    · simp [bytes_read, bytes_read_append, hq2.2.1]

theorem save_body_recorded (e : Env) (h : e.records_well = true) :
    ∃ calls, Recorded (TermSave.loop_body e).2 calls := by
  unfold TermSave.loop_body
  by_cases hp : e.poll_ret < 0
  · exact ⟨[], by simp only [hp, if_true]; exact recorded_nil _ rfl rfl rfl rfl⟩
  · by_cases h0 : e.revents0 &&& POLLIN = 0
    · by_cases h1 : e.revents1 &&& POLLIN = 0
      · by_cases h2 : e.revents2 &&& POLLIN = 0
        · refine ⟨[], ?_⟩
          simp only [hp, h0, h1, h2, if_false, ne_eq, not_true_eq_false]
          split_ifs <;> exact recorded_nil _ rfl rfl rfl rfl
        · simp only [hp, h0, h1, h2, if_false, ne_eq, not_true_eq_false, not_false_eq_true,
            if_true]
          exact save_on_resize_recorded e h
      · simp only [hp, h0, h1, if_false, ne_eq, not_true_eq_false, not_false_eq_true,
          if_true, relay_save_host]
        exact relay_recorded Origin.host Fd.stdin (by decide) e h
    · simp only [hp, h0, if_false, ne_eq, not_false_eq_true, if_true, relay_save_user]
      exact relay_recorded Origin.user Fd.child (by decide) e h

theorem save_loop_recorded (es : List Env) :
    ∀ (st : Status) (tr : List Effect) (calls : List Call),
      (∀ e ∈ es, e.records_well = true) → Recorded tr calls →
      ∃ more, Recorded (TermSave.loop (st, tr) es).2 (calls ++ more) := by
  induction es with
  | nil =>
    intro st tr calls _ h
    exact ⟨[], by rw [save_loop_nil, List.append_nil]; exact h⟩
  | cons e es ih =>
    intro st tr calls hes h
    cases st with
    | ended => exact ⟨[], by rw [save_loop_ended, List.append_nil]; exact h⟩
    | aborted => exact ⟨[], by rw [save_loop_aborted, List.append_nil]; exact h⟩
    | running =>
      rw [save_loop_step]
      obtain ⟨cb, hcb⟩ := save_body_recorded e (hes e (by simp))
      obtain ⟨more, hmore⟩ := ih (TermSave.loop_body e).1 (tr ++ (TermSave.loop_body e).2)
        (calls ++ cb) (fun x hx => hes x (List.mem_cons_of_mem _ hx))
        (recorded_append _ _ _ _ h hcb)
      exact ⟨cb ++ more, by rw [← List.append_assoc]; exact hmore⟩

theorem save_start_recorded (ie : InitEnv) (hrun : (TermSave.session_start ie).1 = Status.running)
    (h : ie.records_well = true) :
    ∃ tp ws, ie.winsz = some ws ∧ Recorded (TermSave.session_start ie).2 [Call.resize tp ws] := by
  obtain ⟨⟨tp, hclock⟩, hws, h1⟩ := init_records_well_unpack ie h
  unfold TermSave.session_start at hrun ⊢
  by_cases hs : ie.sigmask_ok = true
  · by_cases hfd : ie.winch_fd < 0
    · simp [hs, hfd] at hrun
    · rcases hw : ie.winsz with _ | ws
      · simp [hs, hfd, hw] at hrun
      · by_cases hset : ie.set_ok = true
        · obtain ⟨logged, hl, hwl⟩ :=
            record_resize_log tp ws ie.log1 (hws ws hw).1 (hws ws hw).2 h1
          have hq := record_resize_quiet _ _ _ _ logged [Fd.stdin] hl
          have hq2 := record_resize_quiet _ _ _ _ logged [Fd.child] hl
          refine ⟨tp, ws, rfl, ?_⟩
          simp only [hs, hfd, hset, hclock, hl, not_true_eq_false, if_false]
          apply call_resize_recorded tp ws _ (hws ws hw).1 (hws ws hw).2
          · simp [written, hwl]
          · simp [observed, hq.2.2.2]
          · simp [bytes_read, hq.2.1]
          · simp [bytes_read, hq2.2.1]
        · simp [hs, hfd, hw, hset] at hrun
  · simp [hs] at hrun

theorem records_well_of (e : Env) (h1 : e.in_range = true)
    (h2 : e.log_writes_succeed = true) : e.records_well = true := by
  unfold Env.in_range at h1
  unfold Env.log_writes_succeed at h2
  unfold Env.records_well
  rw [Bool.and_eq_true] at h1
  rw [Bool.and_eq_true, Bool.and_eq_true] at h2
  simp only [Bool.and_eq_true]
  exact ⟨⟨⟨⟨h1.1, h1.2⟩, h2.1.1⟩, h2.1.2⟩, h2.2⟩

theorem init_records_well_of (ie : InitEnv) (h1 : ie.in_range = true)
    (h2 : ie.log_writes_succeed = true) : ie.records_well = true := by
  unfold InitEnv.in_range at h1
  unfold InitEnv.log_writes_succeed at h2
  unfold InitEnv.records_well
  rw [Bool.and_eq_true] at h1
  simp only [Bool.and_eq_true]
  exact ⟨⟨h1.1, h1.2⟩, h2⟩

/-- C4, as stated, fails: `record_string` does not look at what its `swrite`
calls return, and the loop goes on after a write to the log has failed. In the
run that starts at `sample_start` and has the one turn `host_byte_unlogged`,
in which the child offers the byte `a` and the write of the payload to the log
fails, the byte is read from the child and forwarded to the terminal, the loop
is still running, and the log holds the first `SIZE` line, the header
`1500000 HOST 1` and a newline, with no payload: the byte is nowhere in the
log, and the log does not decode to a sequence of records. -/
theorem log_write_failure_counterexample :
    (TermSave.session_start sample_start).1 = Status.running
    ∧ (TermSave.save_session sample_start [host_byte_unlogged]).1 = Status.running
    ∧ bytes_read [Fd.child] (TermSave.save_session sample_start [host_byte_unlogged]).2 = [97]
    ∧ written Fd.stdin (TermSave.save_session sample_start [host_byte_unlogged]).2 = [97]
    ∧ written Fd.log (TermSave.save_session sample_start [host_byte_unlogged]).2
        = [49, 53, 48, 48, 48, 48, 48, 32, 83, 73, 90, 69, 32, 56, 48, 32, 50, 52, 10,
            49, 53, 48, 48, 48, 48, 48, 32, 72, 79, 83, 84, 32, 49, 10, 10]
    ∧ 97 ∉ written Fd.log (TermSave.save_session sample_start [host_byte_unlogged]).2
    ∧ decode (written Fd.log (TermSave.save_session sample_start [host_byte_unlogged]).2)
        = none
    ∧ ¬ (∃ recs,
        decode (written Fd.log (TermSave.save_session sample_start [host_byte_unlogged]).2)
          = some recs
        ∧ payloads Origin.host recs
          = bytes_read [Fd.child]
              (TermSave.save_session sample_start [host_byte_unlogged]).2) := by
  have hd : decode (written Fd.log
      (TermSave.save_session sample_start [host_byte_unlogged]).2) = none := by decide
  refine ⟨by decide, by decide, by decide, by decide, by decide, by decide, hd, ?_⟩
  rintro ⟨recs, hrecs, _⟩
  rw [hd] at hrecs
  exact absurd hrecs (by simp)

/-- C4, amended. In term-save, for every run of the loop in which no write to
the log fails (the environment being one the system can present: the clock
delivers a reading, window sizes fit `unsigned short`): the log decodes to a
sequence of records that starts with the `SIZE` record of the window size
found at the start and then holds exactly one record for each thing observed,
in the order of the observations: a `USER` record with the chunk as payload
for each non-empty chunk read from the terminal, a `HOST` record with the
chunk as payload for each non-empty chunk read from the child, a `SIZE` record
for each window size obtained. Hence the `USER` payloads, concatenated, are
the bytes read from the terminal, and the `HOST` payloads the bytes read from
the child. -/
theorem log_holds_records (ie : InitEnv) (es : List Env)
    (hrun : (TermSave.session_start ie).1 = Status.running)
    (hlog : ie.log_writes_succeed = true ∧ ∀ e ∈ es, e.log_writes_succeed = true)
    (hin : ie.in_range = true ∧ ∀ e ∈ es, e.in_range = true) :
    ∃ t ws rest, ie.winsz = some ws
      ∧ decode (written Fd.log (TermSave.save_session ie es).2)
          = some (Record.resize t ws.ws_col ws.ws_row :: rest)
      ∧ (Record.resize t ws.ws_col ws.ws_row :: rest).map Record.obs
          = observed (TermSave.save_session ie es).2
      ∧ payloads Origin.user rest = bytes_read [Fd.stdin] (TermSave.save_session ie es).2
      ∧ payloads Origin.host rest = bytes_read [Fd.child] (TermSave.save_session ie es).2 := by
  have hie := init_records_well_of ie hin.1 hlog.1
  have hes : ∀ e ∈ es, e.records_well = true :=
    fun e he => records_well_of e (hin.2 e he) (hlog.2 e he)
  obtain ⟨tp, ws, hw, hstart⟩ := save_start_recorded ie hrun hie
  obtain ⟨more, h1, h2, h3, h4, h5⟩ := save_loop_recorded es (TermSave.session_start ie).1
    (TermSave.session_start ie).2 [Call.resize tp ws] hes hstart
  refine ⟨micros tp, ws, more.map Call.record, hw, ?_, ?_, ?_, ?_⟩
  · unfold TermSave.save_session
    rw [h2, log_of_calls_encode _ h1, decode_encode_all _ (call_record_timestamp _)]
    rfl
  · exact h3
  · exact h4
  · exact h5

/-- C4, amended, at a run of four turns: the user types `ls` and a newline,
the child answers `a`, the terminal is resized to 100 by 40, the child reaches
end of file. The log decodes to the first `SIZE` record, a `USER` record, a
`HOST` record and a `SIZE` record. -/
theorem log_holds_records_witness :
    (∃ t ws rest, sample_start.winsz = some ws
      ∧ decode (written Fd.log
          (TermSave.save_session sample_start
            [user_types, host_byte, resize_turn, host_eof]).2)
          = some (Record.resize t ws.ws_col ws.ws_row :: rest)
      ∧ (Record.resize t ws.ws_col ws.ws_row :: rest).map Record.obs
          = observed (TermSave.save_session sample_start
              [user_types, host_byte, resize_turn, host_eof]).2
      ∧ payloads Origin.user rest
          = bytes_read [Fd.stdin] (TermSave.save_session sample_start
              [user_types, host_byte, resize_turn, host_eof]).2
      ∧ payloads Origin.host rest
          = bytes_read [Fd.child] (TermSave.save_session sample_start
              [user_types, host_byte, resize_turn, host_eof]).2)
    ∧ decode (written Fd.log
        (TermSave.save_session sample_start [user_types, host_byte, resize_turn, host_eof]).2)
      = some [Record.resize 1500000 80 24, Record.chunk 1500000 Origin.user sample_ls,
          Record.chunk 1500000 Origin.host [97], Record.resize 1500000 100 40] :=
  ⟨log_holds_records sample_start [user_types, host_byte, resize_turn, host_eof]
      (by decide) (by decide) (by decide), by decide⟩

/-- C5, amended, at a run of term-receive in which the user types `ls` and a
newline, a datagram with `id` and a newline arrives on the socket, the child
answers `a`, and the user types `ls` and a newline again, of which the forward
write gets one byte through and then fails: the child received `ls`, newline,
`id`, newline (the chunks of the iterations whose forward write succeeded)
and the one byte `l`; the terminal received `a` and no byte of the socket.
When the last forward write fails at once the child received the two chunks
and nothing more. -/
theorem forwarding_verbatim_witness :
    written Fd.child
        (TermReceive.save_session sample_start
          [user_types, socket_types, host_byte, user_chokes]).2
      = [108, 115, 10, 105, 100, 10, 108]
    ∧ forwarded TermReceive.loop_body [Fd.stdin, Fd.sock]
        [user_types, socket_types, host_byte, user_chokes]
      = [108, 115, 10, 105, 100, 10]
    ∧ unfinished TermReceive.loop_body Fd.child
        [user_types, socket_types, host_byte, user_chokes]
      = [108]
    ∧ written Fd.stdin
        (TermReceive.save_session sample_start
          [user_types, socket_types, host_byte, user_chokes]).2
      = [97]
    ∧ written Fd.child
        (TermReceive.save_session sample_start
          [user_types, socket_types, host_byte, user_refused]).2
      = [108, 115, 10, 105, 100, 10]
    ∧ written Fd.child
        (TermSave.save_session sample_start [user_types, host_byte, user_refused]).2
      = [108, 115, 10]
    ∧ written Fd.stdin
        (TermSave.save_session sample_start [user_types, host_byte, host_refused]).2
      = [97] :=
  ⟨(forwarding_verbatim sample_start [user_types, socket_types, host_byte, user_chokes]
      no_event).1.1.trans (by decide),
    by decide, by decide,
    (forwarding_verbatim sample_start [user_types, socket_types, host_byte, user_chokes]
      no_event).1.2.1.trans (by decide),
    (forwarding_verbatim sample_start [user_types, socket_types, host_byte, user_refused]
      no_event).1.1.trans (by decide),
    (forwarding_verbatim sample_start [user_types, host_byte, user_refused]
      no_event).2.1.1.trans (by decide),
    (forwarding_verbatim sample_start [user_types, host_byte, host_refused]
      no_event).2.1.2.1.trans (by decide)⟩
